import Mathlib

/-!
Shallow embedding of src/sa_gapminder.py: support routines for trimming and
cleaning a Gapminder-style table (first column = country names, remaining
columns = yearly numeric values, missing entries = NaN).

A pandas DataFrame is modelled as a rectangular grid of cells together with
its column labels, row-index labels, the names of the column/row Index
objects (pandas tracks these and `reset_index` uses the row-index name as
the label of the restored first column), and the ad-hoc `name` attribute the
code uses as an orientation tag.  Numeric values are modelled as integers
(the cleaning logic only moves values around, never does arithmetic on
them); a missing entry (NaN) is an explicit cell constructor.

Pandas operations reached by the code are modelled by their documented
behaviour: `transpose` swaps the grid and the two label axes,
`pd.to_numeric` fails on a string cell and is the identity on numeric/NaN
cells, `fillna(method='bfill'/'ffill', limit=L)` fills at most `L`
consecutive NaNs per gap measured from the nearest valid value and raises
`ValueError("Limit must be greater than 0")` when `L < 1`, `drop(labels,
axis=1)` removes every column whose label is listed, and
`dropna(how='all', subset=...)` drops the rows whose subset cells are all
NaN.  Python-level failure modes are kept visible: an uncaught exception is
an `Except.error`, and a bare `return None` is distinguished from the
normal `(df, flag)` pair by the `CleanRet` type.
-/

namespace SaGapminder

/-- A cell of a DataFrame: the identifier column holds strings, the year
columns hold numbers, and missing data is NaN (`na`). -/
inductive Cell where
  | str (s : String)
  | num (v : Int)
  | na
deriving DecidableEq, Repr

/-- Model of `pd.isnull` on one cell: only NaN is null (a string is not). -/
def Cell.isNA : Cell → Bool
  | .na => true
  | _ => false

/-- A cell `pd.to_numeric` accepts: a number or NaN. -/
def Cell.isNumeric : Cell → Bool
  | .str _ => false
  | _ => true

/-- A string cell (used for the identifier column). -/
def Cell.isStr : Cell → Bool
  | .str _ => true
  | _ => false

/-- The label a cell turns into when a data row is promoted to column
headers (`df_T.columns = header` in `transpose_df`). -/
def cellLabel : Cell → String
  | .str s => s
  | .num v => toString v
  | .na => "nan"

/-- Model of a pandas DataFrame: column labels, the column Index name, row
index labels, the row Index name, the row-major grid of cells, and the
`name` attribute used by `transpose_df` as an orientation tag. -/
structure DF where
  columns : List String
  columnsName : Option String
  index : List String
  indexName : Option String
  data : List (List Cell)
  name : String
deriving DecidableEq, Repr

/-- Column `j` of a row-major grid (out-of-range entries read as NaN;
well-formed grids are rectangular so this never happens in practice). -/
def getCol (data : List (List Cell)) (j : Nat) : List Cell :=
  data.map (fun r => r.getD j Cell.na)

/-- Transpose of a row-major grid with `k` columns: row `j` of the result
is column `j` of the input. -/
def transposeGridK (k : Nat) (data : List (List Cell)) : List (List Cell) :=
  (List.range k).map (fun j => getCol data j)

/-- Number of NaN cells in a column (`df_T.isnull().sum()` for one column). -/
def countNA (col : List Cell) : Nat :=
  col.countP (fun c => c.isNA)

/-- The default RangeIndex `0, 1, ...` a DataFrame gets from `reset_index`. -/
def defaultIndex (n : Nat) : List String :=
  (List.range n).map (fun i => toString i)

/-- The `df` argument of `valid_args` as the dynamic `type(df) is DataFrame`
check sees it: either an actual DataFrame or a value of any other type. -/
inductive DFArg where
  | df (d : DF)
  | notDF
deriving Repr

/-- The `years` argument of `valid_args`: `None`, a string, a list of
strings, or a value of any other type (e.g. an integer year), which the
chain of `type(years) is ...` tests in the source silently skips. -/
inductive YearsArg where
  | noneA
  | strA (s : String)
  | listA (l : List String)
  | intA (n : Int)
deriving DecidableEq, Repr

/-- Diagnostic emitted for a year label missing from the columns. -/
def yearErrMsg (y : String) : String :=
  "Error: year " ++ y ++ " does not exist in dataframe."

/-- Diagnostic emitted when the table argument is not a DataFrame. -/
def typeErrMsg : String :=
  "Error: Improper type for dataframe"

/-- Diagnostic emitted for an out-of-range threshold. -/
def thresholdErrMsg (t : Int) : String :=
  "Error: threshold " ++ toString t ++ " must be in range [0 - 99%]"

/-- Diagnostic emitted for an out-of-range fill limit. -/
def limitErrMsg (l : Int) : String :=
  "Error: limit " ++ toString l ++ " must be in range [0 - 5]"

/-- One step of the year-list loop in `valid_args`: an existing year leaves
the accumulator alone, a missing year sets validity to false and appends
its diagnostic. -/
def yearStep (cols : List String) (acc : Bool × List String) (y : String) :
    Bool × List String :=
  if cols.contains y then acc else (false, acc.2 ++ [yearErrMsg y])

/-- The table-type and year checks of `valid_args` (src lines 66-84): the
year checks only run when the table is a DataFrame, and a `years` value
that is neither None nor a string nor a list is not checked at all. -/
def checkDfYears (df : DFArg) (years : YearsArg) : Bool × List String :=
  match df with
  | .df d =>
    match years with
    | .noneA => (true, [])
    | .strA y => if d.columns.contains y then (true, []) else (false, [yearErrMsg y])
    | .listA l => l.foldl (yearStep d.columns) (true, [])
    | .intA _ => (true, [])
  | .notDF => (false, [typeErrMsg])

/-- The threshold range check of `valid_args` (src lines 86-88): out of
range sets `is_valid` to false and prints, in range leaves it alone. -/
def checkThreshold (threshold : Int) (acc : Bool × List String) :
    Bool × List String :=
  if threshold < 0 ∨ threshold > 99 then
    (false, acc.2 ++ [thresholdErrMsg threshold])
  else acc

/-- The limit range check of `valid_args` (src lines 90-92). -/
def checkLimit (limit : Int) (acc : Bool × List String) : Bool × List String :=
  if limit < 0 ∨ limit > 5 then (false, acc.2 ++ [limitErrMsg limit])
  else acc

/-- Model of `valid_args(df, years, threshold, limit)`.  Returns the final
`is_valid` flag together with the ordered list of diagnostics printed on
the way; the source prints and keeps checking instead of returning early,
so the three check groups run unconditionally one after the other. -/
def valid_args (df : DFArg) (years : YearsArg) (threshold : Int) (limit : Int) :
    Bool × List String :=
  checkLimit limit (checkThreshold threshold (checkDfYears df years))

/-- Model of `pd.to_numeric` on one cell: identity on numbers and NaN, raises on a
string. -/
def toNumericCell (c : Cell) : Except String Cell :=
  match c with
  | .str s => .error ("Unable to parse string " ++ s)
  | c => .ok c

/-- Effectful map over a list, propagating the first error (the behaviour
of applying a raising function elementwise). -/
def mapExc {α β : Type} (f : α → Except String β) : List α → Except String (List β)
  | [] => Except.ok []
  | a :: as =>
    match f a with
    | .error e => .error e
    | .ok b =>
      match mapExc f as with
      | .error e => .error e
      | .ok bs => Except.ok (b :: bs)

/-- Model of `df.apply(lambda x: pd.to_numeric(x))` over the whole grid. -/
def applyToNumeric (data : List (List Cell)) : Except String (List (List Cell)) :=
  mapExc (fun r => mapExc toNumericCell r) data

/-- Model of `df.transpose()`: rows and columns swap, and the two label axes (with
their Index names) swap with them. -/
def raw_transpose (df : DF) : DF :=
  { columns := df.index
    columnsName := df.indexName
    index := df.columns
    indexName := df.columnsName
    data := transposeGridK df.columns.length df.data
    name := df.name }

/-- Model of `transpose_df(df, column_type)` (src lines 180-225).  `'country'` mode
promotes the post-transpose first row (the country names) to column
headers — the header Series carries the first index label, which becomes
the name of the new column Index — drops that row, and coerces the rest to
numeric.  `'year'` mode coerces to numeric and then `reset_index` demotes
the row index (the country names) into a new first column labelled by the
row Index name.  Any other mode only performs the raw swap and tags the
result.  Returns `none` when `valid_args` rejects the argument (it never
does for an actual DataFrame). -/
def transpose_df (df : DF) (column_type : String) : Except String (Option DF) :=
  if (valid_args (.df df) .noneA 20 3).1 = false then
    Except.ok none
  else
    let dfT := raw_transpose df
    if column_type = "country" then
      match dfT.data, dfT.index with
      | hrow :: rest, i0 :: irest =>
        match applyToNumeric rest with
        | .error e => .error e
        | .ok d =>
          Except.ok (some
            { columns := hrow.map cellLabel
              columnsName := some i0
              index := irest
              indexName := dfT.indexName
              data := d
              name := "col_type_country" })
      | _, _ => Except.error "single positional indexer is out-of-bounds"
    else if column_type = "year" then
      match applyToNumeric dfT.data with
      | .error e => .error e
      | .ok d =>
        Except.ok (some
          { columns := (dfT.indexName.getD "index") :: dfT.columns
            columnsName := dfT.columnsName
            index := defaultIndex dfT.index.length
            indexName := none
            data := List.zipWith (fun s r => Cell.str s :: r) dfT.index d
            name := "col_type_year" })
    else
      Except.ok (some { dfT with name := "col_type_other" })

/-- Model of `df_T.isnull().sum()/len(df_T) > threshold/100` (src line 268): the
boolean drop mask over the entity columns of the entity-major frame.
Python 3 `/` is exact here (small integers divided by powers of ten stay
exactly representable in doubles), so the comparison `m/n > t/100` is
rendered multiplied through by the positive `100*n` as `100*m > t*n`; when
the frame has zero rows the NaN count `m` is also zero and pandas'
`NaN > x` comparison is False, as `0 > 0` is here.  The ℚ-phrased
equivalence is `above_threshold_iff_rat`. -/
def list_above_threshold (dfT : DF) (threshold : Int) : List Bool :=
  (List.range dfT.columns.length).map (fun j =>
    decide (100 * (countNA (getCol dfT.data j) : Int) >
      threshold * (dfT.data.length : Int)))

/-- Model of `df_T.columns[list_above_threshold]` (src line 271): the labels of the
entity columns selected by the drop mask. -/
def country_drop_list (dfT : DF) (threshold : Int) : List String :=
  ((dfT.columns.zip (list_above_threshold dfT threshold)).filter
    (fun p => p.2)).map (fun p => p.1)

/-- Model of `df.drop(labels, axis=1)`: remove every column whose label is listed,
from the header and from each row (cells stay aligned with their labels). -/
def dropColsByLabels (df : DF) (labels : List String) : DF :=
  { df with
    columns := df.columns.filter (fun c => !(labels.contains c))
    data := df.data.map (fun r =>
      ((df.columns.zip r).filter (fun p => !(labels.contains p.1))).map
        (fun p => p.2)) }

/-- Step 3 of `clean_missing_data` (src lines 266-283): when the drop mask
selects anything, drop those entity columns and record that data was
trimmed; otherwise leave the frame alone. -/
def clean_em_drop (dfT : DF) (threshold : Int) : DF × Bool :=
  let mask := list_above_threshold dfT threshold
  if mask.any (fun b => b) then
    (dropColsByLabels dfT (country_drop_list dfT threshold), true)
  else
    (dfT, false)

/-- Model of `df_T.isnull().any().sum()` (src line 287): how many entity columns
still contain at least one NaN. -/
def countNAColumns (dfT : DF) : Nat :=
  ((List.range dfT.columns.length).filter (fun j =>
    decide (0 < countNA (getCol dfT.data j)))).length

/-- The state a forward fill carries while scanning: the last valid cell
seen (if any) and how many consecutive NaNs follow it so far. -/
def ffSt (last : Option Cell) (run : Nat) : List Cell → Option Cell × Nat
  | [] => (last, run)
  | c :: rest => if c.isNA then ffSt last (run + 1) rest else ffSt (some c) 0 rest

/-- The cell a forward fill writes over the `k`-th consecutive NaN after
the last valid cell: filled while `k ≤ limit` and a valid cell exists,
left as NaN otherwise. -/
def fillCell (L : Nat) (last : Option Cell) (k : Nat) : Cell :=
  if k ≤ L then
    match last with
    | some v => v
    | none => Cell.na
  else Cell.na

/-- Forward fill of one column with limit `L`, scanning with the carried
state: a NaN is replaced by the last valid value when it is within `L`
positions of it (pandas `fillna(method='ffill', limit=L)` on a Series). -/
def ffillAux (L : Nat) (last : Option Cell) (run : Nat) : List Cell → List Cell
  | [] => []
  | c :: rest =>
    if c.isNA then
      fillCell L last (run + 1) :: ffillAux L last (run + 1) rest
    else
      c :: ffillAux L (some c) 0 rest

/-- Forward fill of one column (`method='ffill'`). -/
def ffillList (L : Nat) (xs : List Cell) : List Cell :=
  ffillAux L none 0 xs

/-- Backward fill of one column (`method='bfill'`): a forward fill run
against the direction of the list. -/
def bfillList (L : Nat) (xs : List Cell) : List Cell :=
  (ffillList L xs.reverse).reverse

/-- The combined pass the code applies to every column: backward fill then
forward fill, both with the same limit (src lines 298-299). -/
def fillSeries (L : Nat) (xs : List Cell) : List Cell :=
  ffillList L (bfillList L xs)

/-- Apply a per-column transformation to a row-major grid: view the
columns, map, and restore the row-major layout (pandas fills operate down
each column). -/
def mapCols (f : List Cell → List Cell) (df : DF) : DF :=
  let cols := (transposeGridK df.columns.length df.data).map f
  { df with data := transposeGridK df.data.length cols }

/-- Model of `df.fillna(method=..., limit=limit)`.  Pandas validates the limit up
front and raises `ValueError("Limit must be greater than 0")` whenever a
method fill is given `limit < 1`; otherwise it fills down each column with
the given direction and limit. -/
def fillna (method : String) (limit : Int) (df : DF) : Except String DF :=
  if limit < 1 then Except.error "Limit must be greater than 0"
  else if method = "bfill" then Except.ok (mapCols (bfillList limit.toNat) df)
  else if method = "ffill" then Except.ok (mapCols (ffillList limit.toNat) df)
  else Except.error "Invalid fill method"

/-- Step 4 of `clean_missing_data` (src lines 287-311): when some entity
column still has a NaN, run the backward fill then the forward fill, each
bounded by the limit; otherwise do nothing. -/
def clean_em_fill (dfT : DF) (limit : Int) : Except String DF :=
  if 0 < countNAColumns dfT then
    match fillna "bfill" limit dfT with
    | .error e => .error e
    | .ok a =>
      match fillna "ffill" limit a with
      | .error e => .error e
      | .ok b => Except.ok b
  else Except.ok dfT

/-- The value a call of `clean_missing_data` evaluates to when it does not
raise: the bare `None` of the failed-validation path (src line 253), or
the `(df, b_data_trimmed)` pair of the normal path (src line 318). -/
inductive CleanRet where
  | retNone
  | retPair (df : Option DF) (b : Bool)
deriving DecidableEq, Repr

/-- Model of `clean_missing_data(df, threshold, limit)` (src lines 228-318).
Validation failure returns the bare `None`; otherwise the frame is
transposed to entity-major orientation, entity columns above the threshold
are dropped (step 3), remaining NaNs are back- then forward-filled up to
the limit (step 4, which raises for `limit=0` via pandas), and the frame
is transposed back.  The verbose branches only print and are omitted. -/
def clean_missing_data (df : DF) (threshold : Int) (limit : Int) :
    Except String CleanRet :=
  if (valid_args (.df df) .noneA threshold limit).1 = false then
    Except.ok CleanRet.retNone
  else
    match transpose_df df "country" with
    | .error e => .error e
    | .ok none => Except.ok (CleanRet.retPair (some df) false)
    | .ok (some dfT0) =>
      let step3 := clean_em_drop dfT0 threshold
      match clean_em_fill step3.1 limit with
      | .error e => .error e
      | .ok dfT2 =>
        match transpose_df dfT2 "year" with
        | .error e => .error e
        | .ok dfY => Except.ok (CleanRet.retPair dfY step3.2)

deriving instance DecidableEq for Except

/-- First index satisfying a predicate, if any. -/
def findIdxA {α : Type} (f : α → Bool) : List α → Option Nat
  | [] => none
  | a :: as => if f a then some 0 else (findIdxA f as).map (fun i => i + 1)

/-- Model of `df.columns.get_loc(key)`: position of a label in the columns.  A
string key is looked up; a key of any other type (an integer year, `None`,
a list) never equals a string label and raises. -/
def get_loc (cols : List String) (key : YearsArg) : Except String Nat :=
  match key with
  | .strA s =>
    match findIdxA (fun c => c == s) cols with
    | some i => Except.ok i
    | none => Except.error ("KeyError: " ++ s)
  | .intA n => Except.error ("KeyError: " ++ toString n)
  | _ => Except.error "TypeError: unhashable key"

/-- Step 1 of `trim_and_clean` (src lines 367-374): when `start_year` sits
strictly after the first data column (`index_year > 1`), drop the year
columns `df.columns[1:index_year]` by label; column 0 (the country names)
is never part of the slice. -/
def trim_step1 (df : DF) (index_year : Nat) : DF × Bool :=
  if index_year > 1 then
    (dropColsByLabels df ((df.columns.take index_year).drop 1), true)
  else (df, false)

/-- Model of `df.isnull().any(axis=1).sum()` (src line 376): number of rows with at
least one NaN. -/
def countNARows (df : DF) : Nat :=
  (df.data.filter (fun r => r.any (fun c => c.isNA))).length

/-- Model of `df.dropna(how='all', subset=df.columns[1:], inplace=True)` (src line
384): drop the rows whose year cells are all NaN, keeping the index
aligned. -/
def dropAllNaRows (df : DF) : DF :=
  let keep := df.data.map (fun r => !((r.drop 1).all (fun c => c.isNA)))
  { df with
    data := ((df.data.zip keep).filter (fun p => p.2)).map (fun p => p.1)
    index := ((df.index.zip keep).filter (fun p => p.2)).map (fun p => p.1) }

/-- Model of `trim_and_clean(df_raw, start_year, threshold, limit)` (src lines
321-409).  The first component is what the call returns (`None` on failed
validation, the trimmed and cleaned frame otherwise) or the uncaught
exception it raises; the second component is the object `df_raw` refers to
after the call.  The source works on `df_raw.copy(deep=True)` and every
in-place mutation (`drop`, `dropna`) targets that copy, so each branch
hands back `df_raw` itself.  Unpacking the cleaner's bare `None` raises a
`TypeError`, kept visible here (unreachable, since this function validated
the same threshold and limit first). -/
def trim_and_clean (df_raw : DF) (start_year : YearsArg) (threshold : Int)
    (limit : Int) : Except String (Option DF) × DF :=
  if (valid_args (.df df_raw) start_year threshold limit).1 = false then
    (Except.ok none, df_raw)
  else
    match get_loc df_raw.columns start_year with
    | .error e => (Except.error e, df_raw)
    | .ok index_year =>
      let df0 := df_raw
      let step1 := trim_step1 df0 index_year
      if 0 < countNARows step1.1 then
        match clean_missing_data (dropAllNaRows step1.1) threshold limit with
        | .error e => (Except.error e, df_raw)
        | .ok CleanRet.retNone =>
          (Except.error "TypeError: cannot unpack non-iterable NoneType object", df_raw)
        | .ok (CleanRet.retPair d _) => (Except.ok d, df_raw)
      else
        (Except.ok (some step1.1), df_raw)

/-- A row of a numeric grid: every cell is a number or NaN. -/
def numericRow (r : List Cell) : Prop :=
  ∀ c ∈ r, c.isNumeric = true

/-- Well-formed year-major table: at least the identifier column exists,
the grid is rectangular, every row starts with a string cell (the entity
name) followed by numeric cells, and the entity names are distinct (the
data model requires a unique entity identifier). -/
def WFyear (df : DF) : Prop :=
  df.columns ≠ [] ∧
  (∀ r ∈ df.data, r.length = df.columns.length) ∧
  (∀ r ∈ df.data, r ≠ [] ∧ (r.headD Cell.na).isStr = true ∧ numericRow (r.drop 1)) ∧
  (df.data.map (fun r => cellLabel (r.headD Cell.na))).Nodup

/-- Well-formed entity-major frame (the shape `transpose_df _ "country"`
produces): rectangular numeric grid, one row per year label, distinct
entity labels. -/
def WFem (M : DF) : Prop :=
  (∀ r ∈ M.data, r.length = M.columns.length) ∧
  (∀ r ∈ M.data, numericRow r) ∧
  M.columns.Nodup ∧
  M.index.length = M.data.length

/-- Entity names of a year-major table (cell 0 of each row, as labels). -/
def namesOf (df : DF) : List String :=
  df.data.map (fun r => cellLabel (r.headD Cell.na))

/-- Year values of a year-major table (each row without its name cell). -/
def valsOf (df : DF) : List (List Cell) :=
  df.data.map (fun r => r.drop 1)

/-- Normal form of `transpose_df df "country"` on a well-formed year-major
table: entities become columns, years become rows. -/
def emOf (df : DF) : DF :=
  { columns := namesOf df
    columnsName := df.columns.head?
    index := df.columns.drop 1
    indexName := df.columnsName
    data := transposeGridK (df.columns.drop 1).length (valsOf df)
    name := "col_type_country" }

/-- Normal form of `transpose_df M "year"` on an entity-major frame: years
become columns again and the entity labels come back as a first column
named by the column-Index name `reset_index` finds. -/
def yearOf (M : DF) : DF :=
  { columns := (M.columnsName.getD "index") :: M.index
    columnsName := M.indexName
    index := defaultIndex M.columns.length
    indexName := none
    data := List.zipWith (fun s r => Cell.str s :: r) M.columns
      (transposeGridK M.columns.length M.data)
    name := "col_type_year" }

/-- A stretch of a column contains no missing value: every position
`i, i+1, ..., i+len-1` holds a non-NaN cell. -/
def noNASeg (col : List Cell) (i len : Nat) : Prop :=
  ∀ t, t < len → ∃ c, col.get? (i + t) = some c ∧ c.isNA = false

instance (r : List Cell) : Decidable (numericRow r) := by
  unfold numericRow
  infer_instance

instance (df : DF) : Decidable (WFyear df) := by
  unfold WFyear
  infer_instance

instance (M : DF) : Decidable (WFem M) := by
  unfold WFem
  infer_instance

/-- Example year-major table: one country, four years, an interior gap of
two consecutive missing values. -/
def dfGap2 : DF :=
  { columns := ["Country", "y1", "y2", "y3", "y4"]
    columnsName := none
    index := ["0"]
    indexName := none
    data := [[Cell.str "A", Cell.num 1, Cell.na, Cell.na, Cell.num 2]]
    name := "df" }

/-- The table `clean_missing_data dfGap2 50 1` returns: the gap of
`limit + 1 = 2` interior missing values has been filled completely. -/
def dfGap2Res : DF :=
  { columns := ["Country", "y1", "y2", "y3", "y4"]
    columnsName := none
    index := ["0"]
    indexName := none
    data := [[Cell.str "A", Cell.num 1, Cell.num 1, Cell.num 2, Cell.num 2]]
    name := "col_type_year" }

/-- Example year-major table: one country whose series starts with three
missing values before its only value. -/
def dfLong : DF :=
  { columns := ["Country", "y1", "y2", "y3", "y4"]
    columnsName := none
    index := ["0"]
    indexName := none
    data := [[Cell.str "A", Cell.na, Cell.na, Cell.na, Cell.num 5]]
    name := "df" }

/-- First application of `clean_missing_data dfLong 75 1`: the backward
fill reaches two positions short of the start. -/
def dfLongRes1 : DF :=
  { columns := ["Country", "y1", "y2", "y3", "y4"]
    columnsName := none
    index := ["0"]
    indexName := none
    data := [[Cell.str "A", Cell.na, Cell.na, Cell.num 5, Cell.num 5]]
    name := "col_type_year" }

/-- Second application of `clean_missing_data _ 75 1` on `dfLongRes1`: the
backward fill advances one more position, changing a value. -/
def dfLongRes2 : DF :=
  { columns := ["Country", "y1", "y2", "y3", "y4"]
    columnsName := none
    index := ["0"]
    indexName := none
    data := [[Cell.str "A", Cell.na, Cell.num 5, Cell.num 5, Cell.num 5]]
    name := "col_type_year" }

/-- Small complete year-major table (no missing values). -/
def dfSmall : DF :=
  { columns := ["Country", "y1", "y2"]
    columnsName := none
    index := ["0"]
    indexName := none
    data := [[Cell.str "A", Cell.num 1, Cell.num 2]]
    name := "df" }

/-- What `clean_missing_data dfSmall 20 3` returns. -/
def dfSmallRes : DF :=
  { columns := ["Country", "y1", "y2"]
    columnsName := none
    index := ["0"]
    indexName := none
    data := [[Cell.str "A", Cell.num 1, Cell.num 2]]
    name := "col_type_year" }

/-- Year-major table with one missing value (to reach the fill step). -/
def dfOneNA : DF :=
  { columns := ["Country", "y1", "y2"]
    columnsName := none
    index := ["0"]
    indexName := none
    data := [[Cell.str "A", Cell.na, Cell.num 5]]
    name := "df" }

/-- Entity-major frame with two countries, each missing one of two years
(missing fraction exactly one half). -/
def emHalf : DF :=
  { columns := ["A", "B"]
    columnsName := some "Country"
    index := ["y1", "y2"]
    indexName := none
    data := [[Cell.na, Cell.num 3], [Cell.num 1, Cell.na]]
    name := "col_type_country" }

/-- Entity-major frame with one country whose series is a start gap of two
missing values before its only value. -/
def emStartGap : DF :=
  { columns := ["A"]
    columnsName := some "Country"
    index := ["y1", "y2", "y3"]
    indexName := none
    data := [[Cell.na], [Cell.na], [Cell.num 5]]
    name := "col_type_country" }

/-! ### Basic grid lemmas -/

theorem getD_map_getD (data : List (List Cell)) (i j : Nat) :
    (data.map (fun r => r.getD j Cell.na)).getD i Cell.na =
      (data.getD i []).getD j Cell.na := by
  induction data generalizing i with
  | nil => simp
  | cons r rs ih =>
    cases i with
    | zero => simp
    | succ i => simpa using ih i

theorem map_getD_range {α : Type} (l : List α) (d : α) :
    (List.range l.length).map (fun i => l.getD i d) = l := by
  induction l with
  | nil => simp
  | cons a l ih =>
    rw [List.length_cons, List.range_succ_eq_map, List.map_cons, List.map_map]
    have h : (List.range l.length).map ((fun i => (a :: l).getD i d) ∘ Nat.succ) =
        (List.range l.length).map (fun i => l.getD i d) :=
      List.map_congr_left (fun i _ => by simp)
    rw [h, ih]
    rfl

theorem getCol_length (data : List (List Cell)) (j : Nat) :
    (getCol data j).length = data.length := by
  simp [getCol]

theorem transposeGridK_length (k : Nat) (data : List (List Cell)) :
    (transposeGridK k data).length = k := by
  simp [transposeGridK]

theorem mem_transposeGridK_length (k : Nat) (data : List (List Cell)) :
    ∀ r ∈ transposeGridK k data, r.length = data.length := by
  intro r hr
  simp only [transposeGridK, List.mem_map] at hr
  obtain ⟨j, -, rfl⟩ := hr
  exact getCol_length data j

theorem getD_getCol (data : List (List Cell)) (i j : Nat) :
    (getCol data j).getD i Cell.na = (data.getD i []).getD j Cell.na :=
  getD_map_getD data i j

theorem getCol_transposeGridK (k : Nat) (cols : List (List Cell)) (j : Nat)
    (hj : j < cols.length) (hlen : ∀ c ∈ cols, c.length = k) :
    getCol (transposeGridK k cols) j = cols.getD j [] := by
  have hone : ∀ i : Nat, (getCol cols i).getD j Cell.na =
      (cols.getD j []).getD i Cell.na := by
    intro i
    exact getD_getCol cols j i
  have hlenj : (cols.getD j []).length = k := by
    have : cols.getD j [] ∈ cols := by
      rw [List.getD_eq_getElem cols [] hj]
      exact List.getElem_mem hj
    exact hlen _ this
  calc getCol (transposeGridK k cols) j
      = (List.range k).map (fun i => (getCol cols i).getD j Cell.na) := by
        simp [getCol, transposeGridK, List.map_map]
    _ = (List.range k).map (fun i => (cols.getD j []).getD i Cell.na) := by
        exact List.map_congr_left (fun i _ => hone i)
    _ = cols.getD j [] := by
        rw [← hlenj]
        exact map_getD_range _ _

theorem transposeGridK_transposeGridK (k : Nat) (data : List (List Cell))
    (hrect : ∀ r ∈ data, r.length = k) :
    transposeGridK data.length (transposeGridK k data) = data := by
  have hcol : ∀ i, i < data.length →
      getCol (transposeGridK k data) i = data.getD i [] := by
    intro i hi
    have h1 : getCol (transposeGridK k data) i =
        (List.range k).map (fun j => (getCol data j).getD i Cell.na) := by
      simp [getCol, transposeGridK, List.map_map]
    have h2 : ∀ j : Nat, (getCol data j).getD i Cell.na =
        (data.getD i []).getD j Cell.na := fun j => getD_getCol data i j
    have hmem : data.getD i [] ∈ data := by
      rw [List.getD_eq_getElem data [] hi]
      exact List.getElem_mem hi
    have hlen : (data.getD i []).length = k := hrect _ hmem
    rw [h1, List.map_congr_left (fun j _ => h2 j), ← hlen, map_getD_range]
  calc transposeGridK data.length (transposeGridK k data)
      = (List.range data.length).map (fun i => getCol (transposeGridK k data) i) := rfl
    _ = (List.range data.length).map (fun i => data.getD i []) :=
        List.map_congr_left (fun i hi => hcol i (List.mem_range.mp hi))
    _ = data := map_getD_range data []

theorem getD_drop_one (r : List Cell) (j : Nat) :
    (r.drop 1).getD j Cell.na = r.getD (j + 1) Cell.na := by
  cases r <;> simp

theorem getCol_succ (data : List (List Cell)) (j : Nat) :
    getCol data (j + 1) = getCol (data.map (fun r => r.drop 1)) j := by
  simp only [getCol, List.map_map]
  exact List.map_congr_left (fun r _ => (getD_drop_one r j).symm)

theorem transposeGridK_succ (n : Nat) (data : List (List Cell)) :
    transposeGridK (n + 1) data =
      getCol data 0 :: transposeGridK n (data.map (fun r => r.drop 1)) := by
  simp only [transposeGridK, List.range_succ_eq_map, List.map_cons, List.map_map]
  refine congrArg (getCol data 0 :: ·) ?_
  exact List.map_congr_left (fun j _ => getCol_succ data j)

/-! ### Forward-fill lemmas -/

theorem ffillAux_length (L : Nat) (last : Option Cell) (run : Nat) (xs : List Cell) :
    (ffillAux L last run xs).length = xs.length := by
  induction xs generalizing last run with
  | nil => rfl
  | cons c rest ih =>
    by_cases h : c.isNA = true
    · simp [ffillAux, h, ih]
    · simp [ffillAux, h, ih]

theorem ffillList_length (L : Nat) (xs : List Cell) :
    (ffillList L xs).length = xs.length :=
  ffillAux_length L none 0 xs

theorem bfillList_length (L : Nat) (xs : List Cell) :
    (bfillList L xs).length = xs.length := by
  simp [bfillList, ffillList_length]

theorem fillSeries_length (L : Nat) (xs : List Cell) :
    (fillSeries L xs).length = xs.length := by
  simp [fillSeries, ffillList_length, bfillList_length]

theorem ffSt_append (last : Option Cell) (run : Nat) (xs ys : List Cell) :
    ffSt last run (xs ++ ys) = ffSt (ffSt last run xs).1 (ffSt last run xs).2 ys := by
  induction xs generalizing last run with
  | nil => rfl
  | cons c rest ih =>
    by_cases h : c.isNA = true <;> simp [ffSt, h, ih]

theorem ffillAux_append (L : Nat) (last : Option Cell) (run : Nat) (xs ys : List Cell) :
    ffillAux L last run (xs ++ ys) =
      ffillAux L last run xs ++
        ffillAux L (ffSt last run xs).1 (ffSt last run xs).2 ys := by
  induction xs generalizing last run with
  | nil => rfl
  | cons c rest ih =>
    by_cases h : c.isNA = true <;> simp [ffillAux, ffSt, h, ih]

theorem ffSt_replicate (last : Option Cell) (run j : Nat) :
    ffSt last run (List.replicate j Cell.na) = (last, run + j) := by
  induction j generalizing run with
  | zero => rfl
  | succ j ih =>
    rw [List.replicate_succ]
    show ffSt last (run + 1) (List.replicate j Cell.na) = (last, run + (j + 1))
    rw [ih]
    congr 1
    omega

theorem ffSt_replicate_val (last : Option Cell) (run j : Nat) (v : Cell)
    (hv : v.isNA = false) (ys : List Cell) :
    ffSt last run (List.replicate j Cell.na ++ v :: ys) = ffSt (some v) 0 ys := by
  rw [ffSt_append, ffSt_replicate]
  simp [ffSt, hv]

theorem ffSt_snoc_val (last : Option Cell) (run : Nat) (xs : List Cell) (v : Cell)
    (hv : v.isNA = false) :
    ffSt last run (xs ++ [v]) = (some v, 0) := by
  rw [ffSt_append]
  simp [ffSt, hv]

theorem ffillAux_replicate (L : Nat) (last : Option Cell) (run j : Nat) :
    ffillAux L last run (List.replicate j Cell.na) =
      (List.range j).map (fun t => fillCell L last (run + t + 1)) := by
  induction j generalizing run with
  | zero => rfl
  | succ j ih =>
    rw [List.replicate_succ, List.range_succ_eq_map]
    show fillCell L last (run + 1) :: ffillAux L last (run + 1) (List.replicate j Cell.na) = _
    rw [ih, List.map_cons, List.map_map]
    refine congrArg₂ (· :: ·) (congrArg (fillCell L last) (by omega)) ?_
    exact List.map_congr_left (fun t _ => congrArg (fillCell L last) (by omega))

theorem ffillAux_allVal (L : Nat) (last : Option Cell) (run : Nat) (xs : List Cell)
    (h : ∀ c ∈ xs, c.isNA = false) :
    ffillAux L last run xs = xs := by
  induction xs generalizing last run with
  | nil => rfl
  | cons c rest ih =>
    have hc : c.isNA = false := h c (by simp)
    simp [ffillAux, hc, ih (some c) 0 (fun d hd => h d (by simp [hd]))]

theorem fillCell_some_le (L : Nat) (v : Cell) (k : Nat) (hk : k ≤ L) :
    fillCell L (some v) k = v := by
  simp [fillCell, hk]

theorem fillCell_gt (L : Nat) (last : Option Cell) (k : Nat) (hk : L < k) :
    fillCell L last k = Cell.na := by
  simp [fillCell, Nat.not_le.mpr hk]

theorem fillCell_none (L : Nat) (k : Nat) : fillCell L none k = Cell.na := by
  unfold fillCell
  split <;> rfl

theorem ffillAux_cons_na (L : Nat) (last : Option Cell) (run : Nat)
    (rest : List Cell) :
    ffillAux L last run (Cell.na :: rest) =
      fillCell L last (run + 1) :: ffillAux L last (run + 1) rest := rfl

theorem ffillAux_cons_val (L : Nat) (last : Option Cell) (run : Nat) (c : Cell)
    (rest : List Cell) (h : c.isNA = false) :
    ffillAux L last run (c :: rest) = c :: ffillAux L (some c) 0 rest := by
  simp [ffillAux, h]

theorem range_map_fillCell_le (L : Nat) (v : Cell) (j : Nat) (hj : j ≤ L) :
    (List.range j).map (fun t => fillCell L (some v) (0 + t + 1)) =
      List.replicate j v := by
  have h : ∀ t ∈ List.range j, fillCell L (some v) (0 + t + 1) = v := by
    intro t ht
    have htj : t < j := List.mem_range.mp ht
    exact fillCell_some_le L v _ (by omega)
  calc (List.range j).map (fun t => fillCell L (some v) (0 + t + 1))
      = (List.range j).map (fun _ => v) := List.map_congr_left h
    _ = List.replicate j v := by simp [List.map_const']

theorem range_map_fillCell_succ (L : Nat) (v : Cell) :
    (List.range (L + 1)).map (fun t => fillCell L (some v) (0 + t + 1)) =
      List.replicate L v ++ [Cell.na] := by
  rw [List.range_succ, List.map_append, range_map_fillCell_le L v L (le_refl L),
    List.map_cons, List.map_nil, fillCell_gt L (some v) (0 + L + 1) (by omega)]

theorem range_map_fillCell_none (L : Nat) (j : Nat) :
    (List.range j).map (fun t => fillCell L none (0 + t + 1)) =
      List.replicate j Cell.na := by
  have h : ∀ t ∈ List.range j, fillCell L none (0 + t + 1) = Cell.na := by
    intro t _
    exact fillCell_none L _
  calc (List.range j).map (fun t => fillCell L none (0 + t + 1))
      = (List.range j).map (fun _ => Cell.na) := List.map_congr_left h
    _ = List.replicate j Cell.na := by simp [List.map_const']

theorem countNA_ffillAux_le (L : Nat) (last : Option Cell) (run : Nat)
    (xs : List Cell) :
    countNA (ffillAux L last run xs) ≤ countNA xs := by
  induction xs generalizing last run with
  | nil => exact le_refl _
  | cons c rest ih =>
    by_cases h : c.isNA = true
    · have hc : c = Cell.na := by cases c <;> simp_all [Cell.isNA]
      subst hc
      rw [ffillAux_cons_na]
      have h2 := ih last (run + 1)
      unfold countNA at h2 ⊢
      cases hf : (fillCell L last (run + 1)).isNA with
      | false =>
        rw [List.countP_cons_of_neg _ _ (by simp [hf]),
          List.countP_cons_of_pos _ _ (by rfl)]
        omega
      | true =>
        rw [List.countP_cons_of_pos _ _ (by simp [hf]),
          List.countP_cons_of_pos _ _ (by rfl)]
        omega
    · have h' : c.isNA = false := by simp [h]
      rw [ffillAux_cons_val L last run c rest h']
      have h2 := ih (some c) 0
      unfold countNA at h2 ⊢
      rw [List.countP_cons_of_neg _ _ (by simp [h']),
        List.countP_cons_of_neg _ _ (by simp [h'])]
      exact h2

theorem countNA_reverse (xs : List Cell) : countNA xs.reverse = countNA xs :=
  (List.reverse_perm xs).countP_eq _

theorem countNA_ffillList_le (L : Nat) (xs : List Cell) :
    countNA (ffillList L xs) ≤ countNA xs :=
  countNA_ffillAux_le L none 0 xs

theorem countNA_bfillList_le (L : Nat) (xs : List Cell) :
    countNA (bfillList L xs) ≤ countNA xs := by
  calc countNA (bfillList L xs) = countNA (ffillList L xs.reverse) :=
        countNA_reverse _
    _ ≤ countNA xs.reverse := countNA_ffillList_le L _
    _ = countNA xs := countNA_reverse xs

theorem countNA_fillSeries_le (L : Nat) (xs : List Cell) :
    countNA (fillSeries L xs) ≤ countNA xs :=
  le_trans (countNA_ffillList_le L _) (countNA_bfillList_le L xs)

theorem fillCell_numeric (L : Nat) (last : Option Cell) (k : Nat)
    (hlast : ∀ v, last = some v → v.isNumeric = true) :
    (fillCell L last k).isNumeric = true := by
  unfold fillCell
  split
  · cases hl : last with
    | none => rfl
    | some v => exact hlast v hl
  · rfl

theorem ffillAux_numeric (L : Nat) (last : Option Cell) (run : Nat) (xs : List Cell)
    (hlast : ∀ v, last = some v → v.isNumeric = true)
    (hxs : ∀ c ∈ xs, c.isNumeric = true) :
    ∀ c ∈ ffillAux L last run xs, c.isNumeric = true := by
  induction xs generalizing last run with
  | nil => intro c hc; simp [ffillAux] at hc
  | cons c rest ih =>
    intro d hd
    by_cases h : c.isNA = true
    · have hc : c = Cell.na := by cases c <;> simp_all [Cell.isNA]
      subst hc
      rw [ffillAux_cons_na, List.mem_cons] at hd
      rcases hd with rfl | hd
      · exact fillCell_numeric L last (run + 1) hlast
      · exact ih last (run + 1) hlast (fun e he => hxs e (by simp [he])) d hd
    · have h' : c.isNA = false := by simp [h]
      rw [ffillAux_cons_val L last run c rest h', List.mem_cons] at hd
      rcases hd with rfl | hd
      · exact hxs d (by simp)
      · refine ih (some c) 0 ?_ (fun e he => hxs e (by simp [he])) d hd
        intro v hv
        cases hv
        exact hxs c (by simp)

theorem ffillList_numeric (L : Nat) (xs : List Cell)
    (hxs : ∀ c ∈ xs, c.isNumeric = true) :
    ∀ c ∈ ffillList L xs, c.isNumeric = true :=
  ffillAux_numeric L none 0 xs (fun v hv => by cases hv) hxs

theorem bfillList_numeric (L : Nat) (xs : List Cell)
    (hxs : ∀ c ∈ xs, c.isNumeric = true) :
    ∀ c ∈ bfillList L xs, c.isNumeric = true := by
  intro c hc
  rw [bfillList, List.mem_reverse] at hc
  exact ffillList_numeric L xs.reverse (fun d hd => hxs d (List.mem_reverse.mp hd)) c hc

/-! ### Behaviour of the combined backward+forward pass on a single gap -/

theorem noNASeg_of_decomp (res P B Q : List Cell) (i len : Nat)
    (hres : res = P ++ B ++ Q) (hP : P.length = i) (hB : B.length = len)
    (hval : ∀ c ∈ B, c.isNA = false) : noNASeg res i len := by
  intro t ht
  subst hres hP hB
  have ht' : t < B.length := ht
  refine ⟨B.get ⟨t, ht'⟩, ?_, hval _ (B.get_mem t ht')⟩
  rw [List.append_assoc, List.get?_append_right (by omega), Nat.add_sub_cancel_left,
    List.get?_append ht', List.get?_eq_get ht']

/-- Splitting an append at a state equation: the forward fill of `xs ++ ys`
is the fill of `xs` followed by the fill of `ys` from the carried state. -/
theorem ffillAux_append_st (L : Nat) (last : Option Cell) (run : Nat)
    (xs ys : List Cell) (l2 : Option Cell) (r2 : Nat)
    (h : ffSt last run xs = (l2, r2)) :
    ffillAux L last run (xs ++ ys) =
      ffillAux L last run xs ++ ffillAux L l2 r2 ys := by
  rw [ffillAux_append, h]

/-- A forward fill leaves a fully valid middle segment in place and does
not change the lengths of the pieces around it. -/
theorem ffillList_decomp_mid (L : Nat) (A B C : List Cell)
    (hB : ∀ c ∈ B, c.isNA = false) :
    ∃ A2 C2, ffillList L (A ++ B ++ C) = A2 ++ B ++ C2 ∧
      A2.length = A.length ∧ C2.length = C.length := by
  refine ⟨ffillAux L none 0 A,
    ffillAux L (ffSt (ffSt none 0 A).1 (ffSt none 0 A).2 B).1
      (ffSt (ffSt none 0 A).1 (ffSt none 0 A).2 B).2 C,
    ?_, ffillAux_length L none 0 A, ffillAux_length L _ _ C⟩
  rw [ffillList, List.append_assoc, ffillAux_append, ffillAux_append,
    ffillAux_allVal _ _ _ _ hB, ← List.append_assoc]

/-- Bfill then ffill on a gap of exactly `L` missing values followed by a
valid value: the gap comes out fully filled (the backward fill alone
reaches all of it). -/
theorem fillSeries_gap_exact_after (L : Nat) (p s' : List Cell) (w : Cell)
    (hw : w.isNA = false) :
    ∃ P Q, fillSeries L (p ++ List.replicate L Cell.na ++ (w :: s')) =
      P ++ List.replicate L w ++ Q ∧ P.length = p.length ∧
      (∀ c ∈ List.replicate L w, c.isNA = false) := by
  have hrev : (p ++ List.replicate L Cell.na ++ (w :: s')).reverse =
      (s'.reverse ++ [w]) ++ (List.replicate L Cell.na ++ p.reverse) := by
    simp [List.reverse_append, List.reverse_replicate]
  have hmid : ffillAux L (some w) 0 (List.replicate L Cell.na ++ p.reverse) =
      List.replicate L w ++ ffillAux L (some w) (0 + L) p.reverse := by
    rw [ffillAux_append_st L (some w) 0 _ _ (some w) (0 + L)
        (ffSt_replicate (some w) 0 L),
      ffillAux_replicate, range_map_fillCell_le L w L (le_refl L)]
  have hb : bfillList L (p ++ List.replicate L Cell.na ++ (w :: s')) =
      (ffillAux L (some w) (0 + L) p.reverse).reverse ++ List.replicate L w ++
        (ffillAux L none 0 (s'.reverse ++ [w])).reverse := by
    rw [bfillList, ffillList, hrev,
      ffillAux_append_st L none 0 _ _ (some w) 0
        (ffSt_snoc_val none 0 s'.reverse w hw),
      hmid]
    simp [List.reverse_append, List.reverse_replicate]
  have hval : ∀ c ∈ List.replicate L w, c.isNA = false := by
    intro c hc
    rw [List.eq_of_mem_replicate hc]
    exact hw
  obtain ⟨A2, C2, hsplit, hlen, -⟩ :=
    ffillList_decomp_mid L ((ffillAux L (some w) (0 + L) p.reverse).reverse)
      (List.replicate L w) ((ffillAux L none 0 (s'.reverse ++ [w])).reverse) hval
  refine ⟨A2, C2, ?_, ?_, hval⟩
  · rw [fillSeries, hb]
    exact hsplit
  · rw [hlen]
    simp [ffillAux_length]

/-- Bfill then ffill on a gap of exactly `L` missing values at the very end
of a series, preceded by a valid value: the forward fill reaches all of it. -/
theorem fillSeries_gap_exact_end (L : Nat) (q : List Cell) (v : Cell)
    (hv : v.isNA = false) :
    ∃ P, fillSeries L (q ++ [v] ++ List.replicate L Cell.na) =
      P ++ List.replicate L v ∧ P.length = q.length + 1 ∧
      (∀ c ∈ List.replicate L v, c.isNA = false) := by
  have hrev : (q ++ [v] ++ List.replicate L Cell.na).reverse =
      List.replicate L Cell.na ++ (v :: q.reverse) := by
    simp [List.reverse_append, List.reverse_replicate]
  have hb : bfillList L (q ++ [v] ++ List.replicate L Cell.na) =
      ((ffillAux L (some v) 0 q.reverse).reverse ++ [v]) ++
        List.replicate L Cell.na := by
    rw [bfillList, ffillList, hrev, ffillAux_append, ffSt_replicate,
      ffillAux_replicate, range_map_fillCell_none,
      ffillAux_cons_val L none (0 + L) v q.reverse hv]
    simp [List.reverse_append, List.reverse_replicate]
  refine ⟨ffillAux L none 0 ((ffillAux L (some v) 0 q.reverse).reverse ++ [v]), ?_, ?_, ?_⟩
  · rw [fillSeries, hb, ffillList, ffillAux_append, ffSt_snoc_val _ _ _ _ hv,
      ffillAux_replicate, range_map_fillCell_le L v L (le_refl L)]
  · simp [ffillAux_length]
  · intro c hc
    rw [List.eq_of_mem_replicate hc]
    exact hv

/-- Bfill then ffill on an interior gap of `L + 1` missing values, bounded
by valid values on both sides: the backward fill covers the last `L`
positions and the forward fill then covers the one position left, so the
whole gap comes out filled. -/
theorem fillSeries_gap_succ_interior (L : Nat) (hL : 1 ≤ L) (q s' : List Cell)
    (v w : Cell) (hv : v.isNA = false) (hw : w.isNA = false) :
    ∃ P Q, fillSeries L (q ++ [v] ++ List.replicate (L + 1) Cell.na ++ (w :: s')) =
      P ++ (v :: List.replicate L w) ++ Q ∧ P.length = q.length + 1 ∧
      (∀ c ∈ v :: List.replicate L w, c.isNA = false) := by
  have hrev : (q ++ [v] ++ List.replicate (L + 1) Cell.na ++ (w :: s')).reverse =
      (s'.reverse ++ [w]) ++ (List.replicate (L + 1) Cell.na ++ (v :: q.reverse)) := by
    simp [List.reverse_append, List.reverse_replicate]
  have hvalrep : ∀ c ∈ List.replicate L w, c.isNA = false := by
    intro c hc
    rw [List.eq_of_mem_replicate hc]
    exact hw
  have hinner : ffillAux L (some w) 0
      (List.replicate (L + 1) Cell.na ++ (v :: q.reverse)) =
      (List.replicate L w ++ [Cell.na]) ++ (v :: ffillAux L (some v) 0 q.reverse) := by
    rw [ffillAux_append_st L (some w) 0 _ _ (some w) (0 + (L + 1))
        (ffSt_replicate (some w) 0 (L + 1)),
      ffillAux_replicate, range_map_fillCell_succ,
      ffillAux_cons_val L (some w) (0 + (L + 1)) v q.reverse hv]
  have hb : bfillList L (q ++ [v] ++ List.replicate (L + 1) Cell.na ++ (w :: s')) =
      ((ffillAux L (some v) 0 q.reverse).reverse ++ [v]) ++
        ((Cell.na :: List.replicate L w) ++
          (ffillAux L none 0 (s'.reverse ++ [w])).reverse) := by
    rw [bfillList, ffillList, hrev,
      ffillAux_append_st L none 0 _ _ (some w) 0
        (ffSt_snoc_val none 0 s'.reverse w hw),
      hinner]
    simp [List.reverse_append, List.reverse_replicate]
  refine ⟨ffillAux L none 0 ((ffillAux L (some v) 0 q.reverse).reverse ++ [v]),
    ffillAux L (ffSt (some v) (0 + 1) (List.replicate L w)).1
      (ffSt (some v) (0 + 1) (List.replicate L w)).2
      ((ffillAux L none 0 (s'.reverse ++ [w])).reverse), ?_, ?_, ?_⟩
  · rw [fillSeries, hb, ffillList,
      ffillAux_append_st L none 0 _ _ (some v) 0
        (ffSt_snoc_val none 0 (ffillAux L (some v) 0 q.reverse).reverse v hv),
      List.cons_append, ffillAux_cons_na, fillCell_some_le L v (0 + 1) (by omega),
      ffillAux_append, ffillAux_append, ffillAux_allVal _ _ _ _ hvalrep]
    simp [List.cons_append, List.append_assoc]
  · simp [ffillAux_length]
  · intro c hc
    rcases List.mem_cons.mp hc with rfl | hc
    · exact hv
    · rw [List.eq_of_mem_replicate hc]
      exact hw

/-- Bfill then ffill on a gap of `L + 1` missing values at the very start
of a series: the backward fill stops one short and the forward fill has no
earlier value, so the first position stays missing. -/
theorem fillSeries_gap_succ_start (L : Nat) (s' : List Cell) (w : Cell)
    (hw : w.isNA = false) :
    (fillSeries L (List.replicate (L + 1) Cell.na ++ (w :: s'))).get? 0 =
      some Cell.na := by
  have hrev : (List.replicate (L + 1) Cell.na ++ (w :: s')).reverse =
      (s'.reverse ++ [w]) ++ List.replicate (L + 1) Cell.na := by
    simp [List.reverse_append, List.reverse_replicate]
  have hb : bfillList L (List.replicate (L + 1) Cell.na ++ (w :: s')) =
      (Cell.na :: List.replicate L w) ++
        (ffillAux L none 0 (s'.reverse ++ [w])).reverse := by
    rw [bfillList, ffillList, hrev, ffillAux_append,
      ffSt_snoc_val none 0 s'.reverse w hw, ffillAux_replicate,
      range_map_fillCell_succ]
    simp [List.reverse_append, List.reverse_replicate]
  rw [fillSeries, hb, ffillList, List.cons_append, ffillAux_cons_na,
    fillCell_none]
  rfl

/-- Bfill then ffill on a gap of `L + 1` missing values at the very end of
a series: the backward fill has no later value and the forward fill stops
one short, so the last position stays missing. -/
theorem fillSeries_gap_succ_end (L : Nat) (q : List Cell) (v : Cell)
    (hv : v.isNA = false) :
    (fillSeries L (q ++ [v] ++ List.replicate (L + 1) Cell.na)).get?
      (q.length + 1 + L) = some Cell.na := by
  have hrev : (q ++ [v] ++ List.replicate (L + 1) Cell.na).reverse =
      List.replicate (L + 1) Cell.na ++ (v :: q.reverse) := by
    simp [List.reverse_append, List.reverse_replicate]
  have hb : bfillList L (q ++ [v] ++ List.replicate (L + 1) Cell.na) =
      ((ffillAux L (some v) 0 q.reverse).reverse ++ [v]) ++
        List.replicate (L + 1) Cell.na := by
    rw [bfillList, ffillList, hrev, ffillAux_append, ffSt_replicate,
      ffillAux_replicate, range_map_fillCell_none,
      ffillAux_cons_val L none (0 + (L + 1)) v q.reverse hv]
    simp [List.reverse_append, List.reverse_replicate]
  rw [fillSeries, hb, ffillList, ffillAux_append, ffSt_snoc_val _ _ _ _ hv,
    ffillAux_replicate, range_map_fillCell_succ]
  have hlen : (ffillAux L none 0 ((ffillAux L (some v) 0 q.reverse).reverse ++ [v])).length =
      q.length + 1 := by
    simp [ffillAux_length]
  rw [List.get?_append_right (by omega)]
  rw [hlen]
  have : q.length + 1 + L - (q.length + 1) = L := by omega
  rw [this, List.get?_append_right (by simp), List.length_replicate]
  simp

/-! ### Per-column view of the DataFrame-level operations -/

theorem getD_map_of_lt {α β : Type} (f : α → β) (l : List α) (j : Nat)
    (hj : j < l.length) (d : β) (d' : α) :
    (l.map f).getD j d = f (l.getD j d') := by
  rw [List.getD_eq_getElem _ _ (by simpa using hj), List.getD_eq_getElem _ _ hj,
    List.getElem_map]

theorem getD_range_of_lt (k j : Nat) (hj : j < k) (d : Nat) :
    (List.range k).getD j d = j := by
  rw [List.getD_eq_getElem _ _ (by simpa using hj)]
  simp

theorem mapCols_columns (f : List Cell → List Cell) (df : DF) :
    (mapCols f df).columns = df.columns := rfl

theorem mapCols_index (f : List Cell → List Cell) (df : DF) :
    (mapCols f df).index = df.index := rfl

theorem mapCols_data_length (f : List Cell → List Cell) (df : DF) :
    (mapCols f df).data.length = df.data.length :=
  transposeGridK_length _ _

theorem mapCols_rect (f : List Cell → List Cell) (df : DF)
    (hlen : ∀ xs, (f xs).length = xs.length) :
    ∀ r ∈ (mapCols f df).data, r.length = df.columns.length := by
  intro r hr
  have h := mem_transposeGridK_length _ _ r hr
  rw [h, List.length_map, transposeGridK_length]

theorem getCol_mapCols (f : List Cell → List Cell) (df : DF)
    (hlen : ∀ xs, (f xs).length = xs.length)
    (hrect : ∀ r ∈ df.data, r.length = df.columns.length) (j : Nat)
    (hj : j < df.columns.length) :
    getCol (mapCols f df).data j = f (getCol df.data j) := by
  have hcl : ((transposeGridK df.columns.length df.data).map f).length =
      df.columns.length := by
    rw [List.length_map, transposeGridK_length]
  have hmemlen : ∀ c ∈ (transposeGridK df.columns.length df.data).map f,
      c.length = df.data.length := by
    intro c hc
    obtain ⟨col, hcol, rfl⟩ := List.mem_map.mp hc
    rw [hlen col]
    exact mem_transposeGridK_length _ _ col hcol
  have h1 : getCol (mapCols f df).data j =
      ((transposeGridK df.columns.length df.data).map f).getD j [] := by
    show getCol (transposeGridK df.data.length _) j = _
    exact getCol_transposeGridK _ _ j (by rw [hcl]; exact hj) hmemlen
  rw [h1, getD_map_of_lt f _ j (by rw [transposeGridK_length]; exact hj) [] []]
  refine congrArg f ?_
  show (transposeGridK df.columns.length df.data).getD j [] = getCol df.data j
  rw [transposeGridK, getD_map_of_lt _ _ j (by simpa using hj) [] 0,
    getD_range_of_lt _ j hj 0]

theorem zipFilter_eq_sel (P : String → Bool) :
    ∀ (cols : List String) (r : List Cell), r.length = cols.length →
    ((cols.zip r).filter (fun p => P p.1)).map (fun p => p.2) =
      ((List.range cols.length).filter (fun i => P (cols.getD i ""))).map
        (fun i => r.getD i Cell.na) := by
  intro cols
  induction cols with
  | nil =>
    intro r hr
    rw [List.length_eq_zero.mp hr]
    rfl
  | cons c cs ih =>
    intro r hr
    cases r with
    | nil => simp at hr
    | cons x xs =>
      have hxs : xs.length = cs.length := by simpa using hr
      have htail :
          ((List.range cs.length).map Nat.succ).filter
              (fun i => P ((c :: cs).getD i "")) =
            ((List.range cs.length).filter (fun i => P (cs.getD i ""))).map
              Nat.succ := by
        rw [List.filter_map]
        refine congrArg (List.map Nat.succ) ?_
        refine List.filter_congr ?_
        intro i _
        simp [Function.comp]
      rw [List.length_cons, List.range_succ_eq_map, List.zip_cons_cons,
        List.filter_cons, List.filter_cons]
      by_cases hPc : P c = true
      · have hPc0 : P ((c :: cs).getD 0 "") = true := hPc
        simp only [hPc, hPc0, if_true, List.map_cons, htail, List.map_map]
        refine congrArg (x :: ·) ?_
        rw [ih xs hxs]
        refine List.map_congr_left ?_
        intro i _
        simp [Function.comp]
      · have hPc' : P c = false := by simp [hPc]
        have hPc0 : P ((c :: cs).getD 0 "") = false := hPc'
        simp only [hPc', hPc0, Bool.false_eq_true, if_false, htail, List.map_map]
        rw [ih xs hxs]
        refine List.map_congr_left ?_
        intro i _
        simp [Function.comp]

theorem filter_eq_sel (P : String → Bool) (cols : List String) :
    cols.filter P =
      ((List.range cols.length).filter (fun i => P (cols.getD i ""))).map
        (fun i => cols.getD i "") := by
  induction cols with
  | nil => rfl
  | cons c cs ih =>
    have htail :
        ((List.range cs.length).map Nat.succ).filter
            (fun i => P ((c :: cs).getD i "")) =
          ((List.range cs.length).filter (fun i => P (cs.getD i ""))).map
            Nat.succ := by
      rw [List.filter_map]
      refine congrArg (List.map Nat.succ) ?_
      refine List.filter_congr ?_
      intro i _
      simp [Function.comp]
    rw [List.length_cons, List.range_succ_eq_map, List.filter_cons,
      List.filter_cons]
    by_cases hPc : P c = true
    · have hPc0 : P ((c :: cs).getD 0 "") = true := hPc
      simp only [hPc, hPc0, if_true, htail, List.map_cons, List.map_map,
        List.getD_cons_zero]
      refine congrArg (c :: ·) ?_
      rw [ih]
      refine List.map_congr_left ?_
      intro i _
      simp [Function.comp]
    · have hPc' : P c = false := by simp [hPc]
      have hPc0 : P ((c :: cs).getD 0 "") = false := hPc'
      simp only [hPc', hPc0, Bool.false_eq_true, if_false, htail, List.map_map]
      rw [ih]
      refine List.map_congr_left ?_
      intro i _
      simp [Function.comp]

theorem getD_mem {α : Type} (l : List α) (i : Nat) (hi : i < l.length) (d : α) :
    l.getD i d ∈ l := by
  rw [List.getD_eq_getElem l d hi]
  exact List.getElem_mem hi

theorem getD_zip {α β : Type} (l1 : List α) (l2 : List β) (i : Nat)
    (h1 : i < l1.length) (h2 : i < l2.length) (d1 : α) (d2 : β) :
    (l1.zip l2).getD i (d1, d2) = (l1.getD i d1, l2.getD i d2) := by
  induction l1 generalizing l2 i with
  | nil => simp at h1
  | cons a l ih =>
    cases l2 with
    | nil => simp at h2
    | cons b l2 =>
      cases i with
      | zero => rfl
      | succ i =>
        simp only [List.zip_cons_cons, List.getD_cons_succ]
        exact ih l2 i (by simpa using h1) (by simpa using h2)

/-! ### The drop mask and the dropped frame -/

theorem length_list_above_threshold (dfT : DF) (threshold : Int) :
    (list_above_threshold dfT threshold).length = dfT.columns.length := by
  simp [list_above_threshold]

theorem list_above_threshold_getD (dfT : DF) (threshold : Int) (j : Nat)
    (hj : j < dfT.columns.length) :
    (list_above_threshold dfT threshold).getD j false =
      decide (100 * (countNA (getCol dfT.data j) : Int) >
        threshold * (dfT.data.length : Int)) := by
  rw [list_above_threshold, getD_map_of_lt _ _ j (by simpa using hj) false 0,
    getD_range_of_lt _ j hj 0]

theorem above_threshold_iff_rat (m n : Nat) (t : Int) (hn : 0 < n) :
    (100 * (m : Int) > t * (n : Int)) ↔
      ((m : ℚ) / (n : ℚ) > (t : ℚ) / 100) := by
  rw [gt_iff_lt, gt_iff_lt,
    div_lt_div_iff (by norm_num) (by exact_mod_cast hn)]
  constructor
  · intro h
    have h2 : ((t * n : Int) : ℚ) < ((100 * m : Int) : ℚ) := by exact_mod_cast h
    push_cast at h2
    linarith
  · intro h
    have h2 : ((t * n : Int) : ℚ) < ((100 * m : Int) : ℚ) := by
      push_cast
      linarith
    exact_mod_cast h2

theorem mem_country_drop_list (dfT : DF) (threshold : Int) (i : Nat)
    (hi : i < dfT.columns.length)
    (hmask : (list_above_threshold dfT threshold).getD i false = true) :
    dfT.columns.getD i "" ∈ country_drop_list dfT threshold := by
  unfold country_drop_list
  refine List.mem_map.mpr ⟨(dfT.columns.getD i "", true), ?_, rfl⟩
  refine List.mem_filter.mpr ⟨?_, rfl⟩
  have hmlen : i < (list_above_threshold dfT threshold).length := by
    rw [length_list_above_threshold]
    exact hi
  have hzip : (dfT.columns.zip (list_above_threshold dfT threshold)).getD i
      ("", false) = (dfT.columns.getD i "",
        (list_above_threshold dfT threshold).getD i false) :=
    getD_zip _ _ i hi hmlen "" false
  rw [hmask] at hzip
  have hzlen : i < (dfT.columns.zip (list_above_threshold dfT threshold)).length := by
    rw [List.length_zip, length_list_above_threshold]
    omega
  rw [← hzip]
  exact getD_mem _ i hzlen _

theorem of_mem_country_drop_list (dfT : DF) (threshold : Int) (x : String)
    (hx : x ∈ country_drop_list dfT threshold) :
    ∃ i, i < dfT.columns.length ∧ dfT.columns.getD i "" = x ∧
      (list_above_threshold dfT threshold).getD i false = true := by
  unfold country_drop_list at hx
  obtain ⟨pr, hpr, hpr1⟩ := List.mem_map.mp hx
  obtain ⟨hprz, hpr2⟩ := List.mem_filter.mp hpr
  obtain ⟨n, hn⟩ := List.mem_iff_get.mp hprz
  have hzl := List.length_zip dfT.columns (list_above_threshold dfT threshold)
  have hml := length_list_above_threshold dfT threshold
  have hlt := n.isLt
  have hnc : (n : Nat) < dfT.columns.length := by omega
  have hnm : (n : Nat) < (list_above_threshold dfT threshold).length := by omega
  have hget : (dfT.columns.zip (list_above_threshold dfT threshold)).getD
      (n : Nat) ("", false) = pr := by
    rw [List.getD_eq_getElem _ _ n.isLt, ← hn]
    rfl
  rw [getD_zip _ _ _ hnc hnm "" false] at hget
  refine ⟨(n : Nat), hnc, ?_, ?_⟩
  · rw [← hpr1, ← hget]
  · have : (list_above_threshold dfT threshold).getD (n : Nat) false = pr.2 := by
      rw [← hget]
    rw [this]
    simpa using hpr2

theorem dropColsByLabels_cols (df : DF) (labels : List String) :
    (dropColsByLabels df labels).columns =
      df.columns.filter (fun c => !(labels.contains c)) := rfl

theorem dropColsByLabels_index (df : DF) (labels : List String) :
    (dropColsByLabels df labels).index = df.index := rfl

theorem dropColsByLabels_data_length (df : DF) (labels : List String) :
    (dropColsByLabels df labels).data.length = df.data.length := by
  simp [dropColsByLabels]

theorem dropColsByLabels_getCol (df : DF) (labels : List String)
    (hrect : ∀ r ∈ df.data, r.length = df.columns.length) (j : Nat)
    (hj : j < (dropColsByLabels df labels).columns.length) :
    ∃ i, i < df.columns.length ∧
      (labels.contains (df.columns.getD i "")) = false ∧
      (dropColsByLabels df labels).columns.getD j "" = df.columns.getD i "" ∧
      getCol (dropColsByLabels df labels).data j = getCol df.data i := by
  have hcols : (dropColsByLabels df labels).columns =
      ((List.range df.columns.length).filter
        (fun i => (fun c => !(labels.contains c)) (df.columns.getD i ""))).map
        (fun i => df.columns.getD i "") := by
    rw [dropColsByLabels_cols, filter_eq_sel]
  have hjlen : j < ((List.range df.columns.length).filter
      (fun i => (fun c => !(labels.contains c)) (df.columns.getD i ""))).length := by
    rw [hcols, List.length_map] at hj
    exact hj
  have hisel : ((List.range df.columns.length).filter
      (fun i => (fun c => !(labels.contains c)) (df.columns.getD i ""))).getD j 0 ∈
      (List.range df.columns.length).filter
        (fun i => (fun c => !(labels.contains c)) (df.columns.getD i "")) :=
    getD_mem _ j hjlen 0
  obtain ⟨hmemr, hPi⟩ := List.mem_filter.mp hisel
  refine ⟨_, List.mem_range.mp hmemr, by simpa using hPi, ?_, ?_⟩
  · rw [hcols, getD_map_of_lt _ _ j hjlen "" 0]
  · show getCol (df.data.map (fun r =>
      ((df.columns.zip r).filter (fun p => !(labels.contains p.1))).map
        (fun p => p.2))) j = _
    unfold getCol
    rw [List.map_map]
    refine List.map_congr_left ?_
    intro r hrmem
    show (((df.columns.zip r).filter (fun p => !(labels.contains p.1))).map
      (fun p => p.2)).getD j Cell.na = _
    rw [zipFilter_eq_sel (fun c => !(labels.contains c)) df.columns r (hrect r hrmem),
      getD_map_of_lt _ _ j hjlen Cell.na 0]

theorem dropColsByLabels_rect (df : DF) (labels : List String)
    (hrect : ∀ r ∈ df.data, r.length = df.columns.length) :
    ∀ r ∈ (dropColsByLabels df labels).data,
      r.length = (dropColsByLabels df labels).columns.length := by
  intro r hr
  obtain ⟨r0, hr0, rfl⟩ := List.mem_map.mp hr
  rw [zipFilter_eq_sel (fun c => !(labels.contains c)) df.columns r0 (hrect r0 hr0),
    List.length_map, dropColsByLabels_cols, filter_eq_sel, List.length_map]

theorem dropColsByLabels_numeric (df : DF) (labels : List String)
    (hnum : ∀ r ∈ df.data, numericRow r) :
    ∀ r ∈ (dropColsByLabels df labels).data, numericRow r := by
  intro r hr
  obtain ⟨r0, hr0, rfl⟩ := List.mem_map.mp hr
  intro c hc
  obtain ⟨pr, hpr, rfl⟩ := List.mem_map.mp hc
  have hprz := (List.mem_filter.mp hpr).1
  exact hnum r0 hr0 pr.2 (List.of_mem_zip hprz).2

theorem countNAColumns_pos (dfT : DF) (j : Nat) (hj : j < dfT.columns.length)
    (hna : 0 < countNA (getCol dfT.data j)) : 0 < countNAColumns dfT := by
  unfold countNAColumns
  refine List.length_pos_of_mem (a := j) ?_
  exact List.mem_filter.mpr ⟨List.mem_range.mpr hj, by simpa using hna⟩

/-! ### Numeric grids and the two transpose modes -/

theorem getD_zero_headD (r : List Cell) : r.getD 0 Cell.na = r.headD Cell.na := by
  cases r <;> rfl

theorem getD_numeric (r : List Cell) (h : numericRow r) (j : Nat) :
    (r.getD j Cell.na).isNumeric = true := by
  by_cases hj : j < r.length
  · rw [List.getD_eq_getElem _ _ hj]
    exact h _ (List.getElem_mem hj)
  · rw [List.getD_eq_default _ _ (by omega)]
    rfl

theorem transposeGridK_numeric (k : Nat) (g : List (List Cell))
    (h : ∀ r ∈ g, numericRow r) :
    ∀ row ∈ transposeGridK k g, numericRow row := by
  intro row hrow
  obtain ⟨j, -, rfl⟩ := List.mem_map.mp hrow
  intro c hc
  obtain ⟨r, hr, rfl⟩ := List.mem_map.mp hc
  exact getD_numeric r (h r hr) j

theorem toNumericCell_ok (c : Cell) (h : c.isNumeric = true) :
    toNumericCell c = Except.ok c := by
  cases c <;> simp_all [toNumericCell, Cell.isNumeric]

theorem mapExc_ok_id {α : Type} (f : α → Except String α) (l : List α)
    (h : ∀ a ∈ l, f a = Except.ok a) : mapExc f l = Except.ok l := by
  induction l with
  | nil => rfl
  | cons a as ih =>
    show (match f a with
      | .error e => Except.error e
      | .ok b =>
        match mapExc f as with
        | .error e => Except.error e
        | .ok bs => Except.ok (b :: bs)) = Except.ok (a :: as)
    rw [h a (by simp), ih (fun b hb => h b (by simp [hb]))]

theorem applyToNumeric_ok (data : List (List Cell))
    (h : ∀ r ∈ data, numericRow r) : applyToNumeric data = Except.ok data := by
  unfold applyToNumeric
  refine mapExc_ok_id _ _ ?_
  intro r hr
  exact mapExc_ok_id _ _ (fun c hc => toNumericCell_ok c (h r hr c hc))

theorem valid_args_default (d : DF) : valid_args (.df d) .noneA 20 3 = (true, []) := rfl

theorem valid_args_inrange (d : DF) (t l : Int) (ht1 : 0 ≤ t) (ht2 : t ≤ 99)
    (hl1 : 0 ≤ l) (hl2 : l ≤ 5) :
    valid_args (.df d) .noneA t l = (true, []) := by
  have h1 : ¬(t < 0 ∨ t > 99) := by omega
  have h2 : ¬(l < 0 ∨ l > 5) := by omega
  simp [valid_args, checkLimit, checkThreshold, checkDfYears, h1, h2]

theorem namesOf_eq_header (df : DF) :
    (getCol df.data 0).map cellLabel = namesOf df := by
  unfold getCol namesOf
  rw [List.map_map]
  refine List.map_congr_left ?_
  intro r _
  show cellLabel (r.getD 0 Cell.na) = cellLabel (r.headD Cell.na)
  rw [getD_zero_headD]

theorem transpose_country_eq (df : DF) (c0 : String) (ys : List String)
    (hcols : df.columns = c0 :: ys)
    (hnum : ∀ r ∈ df.data, numericRow (r.drop 1)) :
    transpose_df df "country" = Except.ok (some (emOf df)) := by
  have hnum2 : applyToNumeric (transposeGridK ys.length
      (df.data.map (fun r => r.drop 1))) = Except.ok (transposeGridK ys.length
      (df.data.map (fun r => r.drop 1))) := by
    refine applyToNumeric_ok _ (transposeGridK_numeric _ _ ?_)
    intro r hr
    obtain ⟨r0, hr0, rfl⟩ := List.mem_map.mp hr
    exact hnum r0 hr0
  have hdata : (raw_transpose df).data =
      getCol df.data 0 :: transposeGridK ys.length
        (df.data.map (fun r => r.drop 1)) := by
    show transposeGridK df.columns.length df.data = _
    rw [hcols, List.length_cons, transposeGridK_succ]
  have hidx : (raw_transpose df).index = c0 :: ys := by
    show df.columns = _
    exact hcols
  unfold transpose_df
  rw [if_neg (by rw [valid_args_default]; simp), if_pos rfl, hdata, hidx]
  show (match applyToNumeric (transposeGridK ys.length
      (df.data.map (fun r => r.drop 1))) with
    | .error e => Except.error e
    | .ok d => Except.ok (some
        { columns := (getCol df.data 0).map cellLabel
          columnsName := some c0
          index := ys
          indexName := (raw_transpose df).indexName
          data := d
          name := "col_type_country" })) = Except.ok (some (emOf df))
  rw [hnum2]
  refine congrArg (fun x => Except.ok (some x)) ?_
  unfold emOf
  rw [namesOf_eq_header]
  rw [hcols]
  rfl

theorem transpose_year_eq (M : DF) (hnum : ∀ r ∈ M.data, numericRow r) :
    transpose_df M "year" = Except.ok (some (yearOf M)) := by
  have hnum2 : applyToNumeric (transposeGridK M.columns.length M.data) =
      Except.ok (transposeGridK M.columns.length M.data) :=
    applyToNumeric_ok _ (transposeGridK_numeric _ _ hnum)
  unfold transpose_df
  rw [if_neg (by rw [valid_args_default]; simp), if_neg (by simp),
    if_pos rfl]
  show (match applyToNumeric (transposeGridK M.columns.length M.data) with
    | .error e => Except.error e
    | .ok d => Except.ok (some
        { columns := ((raw_transpose M).indexName.getD "index") ::
            (raw_transpose M).columns
          columnsName := (raw_transpose M).columnsName
          index := defaultIndex (raw_transpose M).index.length
          indexName := none
          data := List.zipWith (fun s r => Cell.str s :: r)
            (raw_transpose M).index d
          name := "col_type_year" })) = Except.ok (some (yearOf M))
  rw [hnum2]
  rfl

/-! ### Properties of the validator -/

theorem checkThreshold_keeps_false (t : Int) (acc : Bool × List String)
    (h : acc.1 = false) : (checkThreshold t acc).1 = false := by
  unfold checkThreshold
  split
  · rfl
  · exact h

theorem checkThreshold_keeps_mem (t : Int) (acc : Bool × List String)
    (m : String) (h : m ∈ acc.2) : m ∈ (checkThreshold t acc).2 := by
  unfold checkThreshold
  split
  · simp [h]
  · exact h

theorem checkLimit_keeps_false (l : Int) (acc : Bool × List String)
    (h : acc.1 = false) : (checkLimit l acc).1 = false := by
  unfold checkLimit
  split
  · rfl
  · exact h

theorem checkLimit_keeps_mem (l : Int) (acc : Bool × List String)
    (m : String) (h : m ∈ acc.2) : m ∈ (checkLimit l acc).2 := by
  unfold checkLimit
  split
  · simp [h]
  · exact h

theorem yearFold_invariant (cols : List String) :
    ∀ (yl : List String) (acc : Bool × List String),
      (∀ m ∈ acc.2, m ∈ (yl.foldl (yearStep cols) acc).2) ∧
      (acc.1 = false → (yl.foldl (yearStep cols) acc).1 = false) ∧
      (∀ y ∈ yl, cols.contains y = false →
        (yl.foldl (yearStep cols) acc).1 = false ∧
          yearErrMsg y ∈ (yl.foldl (yearStep cols) acc).2) := by
  intro yl
  induction yl with
  | nil =>
    intro acc
    exact ⟨fun m hm => hm, fun h => h, fun y hy => absurd hy (by simp)⟩
  | cons y0 ytl ih =>
    intro acc
    have hstep_mem : ∀ m ∈ acc.2, m ∈ (yearStep cols acc y0).2 := by
      intro m hm
      unfold yearStep
      split
      · exact hm
      · simp [hm]
    have hstep_false : acc.1 = false → (yearStep cols acc y0).1 = false := by
      intro h
      unfold yearStep
      split
      · exact h
      · rfl
    obtain ⟨ih1, ih2, ih3⟩ := ih (yearStep cols acc y0)
    refine ⟨fun m hm => ih1 m (hstep_mem m hm), fun h => ih2 (hstep_false h), ?_⟩
    intro y hy hcon
    rcases List.mem_cons.mp hy with rfl | hy'
    · have hcon' : ¬(cols.contains y = true) := by
        rw [hcon]
        exact Bool.false_ne_true
      have hsv : yearStep cols acc y = (false, acc.2 ++ [yearErrMsg y]) := by
        unfold yearStep
        rw [if_neg hcon']
      constructor
      · exact ih2 (by rw [hsv])
      · refine ih1 _ ?_
        rw [hsv]
        simp
    · exact ih3 y hy' hcon

/-- C7: the validator rejects every out-of-range threshold and every
out-of-range limit no matter what the other arguments are, and each failed
check (table type, each missing year label, threshold, limit) leaves its
own diagnostic while the remaining checks still run. -/
theorem valid_args_range_and_diagnostics :
    ∀ (d : DFArg) (ys : YearsArg) (t l : Int),
      ((t < 0 ∨ 99 < t) →
        (valid_args d ys t l).1 = false ∧
          thresholdErrMsg t ∈ (valid_args d ys t l).2) ∧
      ((l < 0 ∨ 5 < l) →
        (valid_args d ys t l).1 = false ∧
          limitErrMsg l ∈ (valid_args d ys t l).2) ∧
      (d = DFArg.notDF →
        (valid_args d ys t l).1 = false ∧
          typeErrMsg ∈ (valid_args d ys t l).2) ∧
      (∀ dd y, d = DFArg.df dd → ys = YearsArg.strA y →
        dd.columns.contains y = false →
        (valid_args d ys t l).1 = false ∧
          yearErrMsg y ∈ (valid_args d ys t l).2) ∧
      (∀ dd yl, d = DFArg.df dd → ys = YearsArg.listA yl →
        ∀ y ∈ yl, dd.columns.contains y = false →
        (valid_args d ys t l).1 = false ∧
          yearErrMsg y ∈ (valid_args d ys t l).2) := by
  intro d ys t l
  refine ⟨?_, ?_, ?_, ?_, ?_⟩
  · intro h
    have hth : checkThreshold t (checkDfYears d ys) =
        (false, (checkDfYears d ys).2 ++ [thresholdErrMsg t]) := by
      unfold checkThreshold
      rw [if_pos h]
    constructor
    · exact checkLimit_keeps_false l _ (by rw [hth])
    · refine checkLimit_keeps_mem l _ _ ?_
      rw [hth]
      simp
  · intro h
    unfold valid_args checkLimit
    rw [if_pos h]
    exact ⟨rfl, by simp⟩
  · rintro rfl
    have hd : checkDfYears DFArg.notDF ys = (false, [typeErrMsg]) := rfl
    constructor
    · exact checkLimit_keeps_false l _
        (checkThreshold_keeps_false t _ (by rw [hd]))
    · refine checkLimit_keeps_mem l _ _ (checkThreshold_keeps_mem t _ _ ?_)
      rw [hd]
      simp
  · rintro dd y rfl rfl hcon
    have hcon' : ¬(dd.columns.contains y = true) := by
      rw [hcon]
      exact Bool.false_ne_true
    have hd : checkDfYears (DFArg.df dd) (YearsArg.strA y) =
        (false, [yearErrMsg y]) := by
      show (if dd.columns.contains y = true then ((true : Bool), ([] : List String))
        else (false, [yearErrMsg y])) = (false, [yearErrMsg y])
      rw [if_neg hcon']
    constructor
    · exact checkLimit_keeps_false l _
        (checkThreshold_keeps_false t _ (by rw [hd]))
    · refine checkLimit_keeps_mem l _ _ (checkThreshold_keeps_mem t _ _ ?_)
      rw [hd]
      simp
  · rintro dd yl rfl rfl y hy hcon
    have hd : checkDfYears (DFArg.df dd) (YearsArg.listA yl) =
        yl.foldl (yearStep dd.columns) (true, []) := rfl
    obtain ⟨-, -, h3⟩ := yearFold_invariant dd.columns yl (true, [])
    obtain ⟨hfalse, hmem⟩ := h3 y hy hcon
    constructor
    · exact checkLimit_keeps_false l _
        (checkThreshold_keeps_false t _ (by rw [hd]; exact hfalse))
    · exact checkLimit_keeps_mem l _ _
        (checkThreshold_keeps_mem t _ _ (by rw [hd]; exact hmem))

/-- C7 witness: a non-DataFrame argument together with an out-of-range
threshold and limit fails every check and collects all three diagnostics. -/
theorem valid_args_range_and_diagnostics_witness :
    (valid_args DFArg.notDF (YearsArg.strA "1970") 100 6).1 = false ∧
      thresholdErrMsg 100 ∈ (valid_args DFArg.notDF (YearsArg.strA "1970") 100 6).2 ∧
      limitErrMsg 6 ∈ (valid_args DFArg.notDF (YearsArg.strA "1970") 100 6).2 ∧
      typeErrMsg ∈ (valid_args DFArg.notDF (YearsArg.strA "1970") 100 6).2 := by
  obtain ⟨h1, h2, h3, -, -⟩ :=
    valid_args_range_and_diagnostics DFArg.notDF (YearsArg.strA "1970") 100 6
  obtain ⟨ha, hb⟩ := h1 (by omega)
  obtain ⟨-, hc⟩ := h2 (by omega)
  obtain ⟨-, hd⟩ := h3 rfl
  exact ⟨ha, hb, hc, hd⟩

/-! ### Claim theorems: error paths of clean_missing_data -/

/-- C5: on failed validation (threshold 100 here), `clean_missing_data`
executes the bare `return None` of src line 253 — a single `None`, not the
`(None, False)` pair its own docstring and the spec describe.  A caller
unpacking two values from it raises a `TypeError`. -/
theorem clean_missing_invalid_returns_bare_none :
    clean_missing_data dfSmall 100 3 = Except.ok CleanRet.retNone ∧
      CleanRet.retNone ≠ CleanRet.retPair none false := by
  exact ⟨rfl, by decide⟩

/-- C6: with the validator-accepted limit 0 and a table still containing a
missing value after the drop step, the fill step's `fillna(..., limit=0)`
raises pandas' `ValueError("Limit must be greater than 0")`, so
`clean_missing_data` raises an uncaught fault instead of returning. -/
theorem clean_missing_limit_zero_raises :
    clean_missing_data dfOneNA 50 0 =
      Except.error "Limit must be greater than 0" := by
  decide

/-! ### Claim theorems: trim_and_clean -/

/-- C8: `trim_and_clean` never mutates its input.  All in-place drops act
on the `deep=True` copy bound at src line 353, so on every control path
the object `df_raw` refers to after the call is unchanged. -/
theorem trim_and_clean_preserves_input (df_raw : DF) (sy : YearsArg)
    (t l : Int) : (trim_and_clean df_raw sy t l).2 = df_raw := by
  unfold trim_and_clean
  split
  · rfl
  · split
    · rfl
    · dsimp only
      split
      · split <;> rfl
      · rfl

/-- C10: an integer year label is skipped by every `type(years) is ...`
test in `valid_args`, so validation succeeds with no diagnostic even
though the label is absent from the (string-labelled) columns, and
`trim_and_clean` then reaches `df.columns.get_loc(start_year)` with the
unvalidated label, which raises a `KeyError`. -/
theorem valid_args_skips_int_year (d : DF) (n : Int) (t l : Int)
    (ht1 : 0 ≤ t) (ht2 : t ≤ 99) (hl1 : 0 ≤ l) (hl2 : l ≤ 5) :
    valid_args (DFArg.df d) (YearsArg.intA n) t l = (true, []) ∧
      (trim_and_clean d (YearsArg.intA n) t l).1 =
        Except.error ("KeyError: " ++ toString n) := by
  have hva : valid_args (DFArg.df d) (YearsArg.intA n) t l = (true, []) := by
    have h1 : ¬(t < 0 ∨ t > 99) := by omega
    have h2 : ¬(l < 0 ∨ l > 5) := by omega
    simp [valid_args, checkLimit, checkThreshold, checkDfYears, h1, h2]
  refine ⟨hva, ?_⟩
  unfold trim_and_clean
  rw [hva]
  rw [if_neg (by simp)]
  rfl

/-- C10 witness: a concrete table and the integer label 2015. -/
theorem valid_args_skips_int_year_witness :
    valid_args (DFArg.df dfSmall) (YearsArg.intA 2015) 20 3 = (true, []) ∧
      (trim_and_clean dfSmall (YearsArg.intA 2015) 20 3).1 =
        Except.error ("KeyError: " ++ toString (2015 : Int)) :=
  valid_args_skips_int_year dfSmall 2015 20 3 (by omega) (by omega)
    (by omega) (by omega)

/-! ### Claim theorems: column trimming -/

theorem contains_eq_true_iff (l : List String) (x : String) :
    l.contains x = true ↔ x ∈ l := by
  simp [List.contains, List.elem_iff]

theorem findIdxA_lt_length {α : Type} (f : α → Bool) :
    ∀ (l : List α) (i : Nat), findIdxA f l = some i → i < l.length := by
  intro l
  induction l with
  | nil => intro i h; simp [findIdxA] at h
  | cons a as ih =>
    intro i h
    unfold findIdxA at h
    split at h
    · cases h
      simp
    · obtain ⟨j, hj, rfl⟩ := Option.map_eq_some'.mp h
      have := ih j hj
      simp only [List.length_cons]
      omega

theorem get_loc_lt (cols : List String) (sy : YearsArg) (p : Nat)
    (h : get_loc cols sy = Except.ok p) : p < cols.length := by
  cases sy with
  | strA s =>
    have h2 : (match findIdxA (fun c => c == s) cols with
      | some i => Except.ok i
      | none => Except.error ("KeyError: " ++ s)) = Except.ok p := h
    cases hf : findIdxA (fun c => c == s) cols with
    | none =>
      rw [hf] at h2
      cases h2
    | some i =>
      rw [hf] at h2
      have hip : i = p := by
        have := h2
        simp at this
        exact this
      exact hip ▸ findIdxA_lt_length _ cols i hf
  | noneA => simp [get_loc] at h
  | listA l => simp [get_loc] at h
  | intA n => simp [get_loc] at h

/-- C9: step 1 of `trim_and_clean`.  When `start_year` sits at position
`p ≤ 1` (the identifier column or the first data column) nothing at all is
dropped; otherwise exactly the year columns at positions `1 .. p-1` —
strictly between the identifier column and `start_year` — are dropped, and
the identifier column at position 0 survives in every case. -/
theorem trim_step1_exact (df : DF) (sy : YearsArg) (p : Nat)
    (hloc : get_loc df.columns sy = Except.ok p) (hnd : df.columns.Nodup) :
    (p ≤ 1 → trim_step1 df p = (df, false)) ∧
    (1 < p → (trim_step1 df p).1.columns =
      df.columns.take 1 ++ df.columns.drop p) ∧
    (trim_step1 df p).1.columns.take 1 = df.columns.take 1 := by
  have hp : p < df.columns.length := get_loc_lt df.columns sy p hloc
  have hle : p ≤ 1 ∨ 1 < p := by omega
  have hmain : 1 < p → (trim_step1 df p).1.columns =
      df.columns.take 1 ++ df.columns.drop p := by
    intro h1p
    have e1 : df.columns.take p ++ df.columns.drop p = df.columns :=
      List.take_append_drop p df.columns
    have e2 : (df.columns.take p).take 1 ++ (df.columns.take p).drop 1 =
        df.columns.take p := List.take_append_drop 1 (df.columns.take p)
    have e3 : (df.columns.take p).take 1 = df.columns.take 1 := by
      rw [List.take_take]
      congr 1
      omega
    have hsplit : df.columns =
        df.columns.take 1 ++ (df.columns.take p).drop 1 ++ df.columns.drop p := by
      conv_lhs => rw [← e1, ← e2, e3]
    obtain ⟨A, B, C, hA, hB, hC, hABC⟩ :
        ∃ A B C, A = df.columns.take 1 ∧ B = (df.columns.take p).drop 1 ∧
          C = df.columns.drop p ∧ df.columns = A ++ B ++ C :=
      ⟨_, _, _, rfl, rfl, rfl, hsplit⟩
    have hnd2 : (A ++ (B ++ C)).Nodup := by
      rw [← List.append_assoc, ← hABC]
      exact hnd
    have hdisj1 := (List.nodup_append.mp hnd2).2.2
    have hnd3 := (List.nodup_append.mp hnd2).2.1
    have hdisj2 := (List.nodup_append.mp hnd3).2.2
    have hstep : (trim_step1 df p).1.columns =
        df.columns.filter (fun c => !(B.contains c)) := by
      unfold trim_step1
      rw [if_pos h1p, hB]
      rfl
    rw [hstep]
    conv_lhs => rw [hABC]
    rw [List.filter_append, List.filter_append]
    have hA' : A.filter (fun c => !(B.contains c)) = A := by
      refine List.filter_eq_self.mpr ?_
      intro x hx
      have hxB : x ∉ B := by
        intro hxB
        exact hdisj1 hx (List.mem_append.mpr (Or.inl hxB))
      simp [contains_eq_true_iff, hxB]
    have hBf : B.filter (fun c => !(B.contains c)) = [] := by
      refine List.filter_eq_nil.mpr ?_
      intro x hx
      simp [contains_eq_true_iff, hx]
    have hC' : C.filter (fun c => !(B.contains c)) = C := by
      refine List.filter_eq_self.mpr ?_
      intro x hx
      have hxB : x ∉ B := fun hxB => hdisj2 hxB hx
      simp [contains_eq_true_iff, hxB]
    rw [hA', hBf, hC', List.append_nil, hA, hC]
  refine ⟨?_, hmain, ?_⟩
  · intro hple
    unfold trim_step1
    rw [if_neg (by omega)]
  · rcases hle with hple | h1p
    · unfold trim_step1
      rw [if_neg (by omega)]
    · rw [hmain h1p]
      rw [List.take_append_of_le_length (by rw [List.length_take]; omega),
        List.take_take]
      simp

/-- C9 witness: `start_year` at position 2 of a five-column table drops
exactly the single year column between the identifier and `start_year`. -/
theorem trim_step1_exact_witness :
    (trim_step1 dfGap2 2).1.columns =
      dfGap2.columns.take 1 ++ dfGap2.columns.drop 2 ∧
    (trim_step1 dfGap2 2).1.columns.take 1 = dfGap2.columns.take 1 := by
  obtain ⟨-, h2, h3⟩ :=
    trim_step1_exact dfGap2 (YearsArg.strA "y2") 2 (by decide) (by decide)
  exact ⟨h2 (by omega), h3⟩

/-! ### Claim theorems: the drop threshold boundary -/

/-- C2: in the drop step of `clean_missing_data`, an entity column whose
missing fraction is exactly `threshold/100` is kept, and one whose
fraction strictly exceeds `threshold/100` is removed — the comparison at
src line 268 is strict. -/
theorem clean_missing_drop_threshold (dfT : DF) (threshold : Int) (j : Nat)
    (hj : j < dfT.columns.length) (hnd : dfT.columns.Nodup)
    (hn : 0 < dfT.data.length) :
    (((countNA (getCol dfT.data j) : ℚ) / (dfT.data.length : ℚ) =
        (threshold : ℚ) / 100) →
      dfT.columns.getD j "" ∈ (clean_em_drop dfT threshold).1.columns) ∧
    (((countNA (getCol dfT.data j) : ℚ) / (dfT.data.length : ℚ) >
        (threshold : ℚ) / 100) →
      dfT.columns.getD j "" ∉ (clean_em_drop dfT threshold).1.columns) := by
  constructor
  · intro heq
    have hmask : (list_above_threshold dfT threshold).getD j false = false := by
      rw [list_above_threshold_getD dfT threshold j hj]
      have hnot : ¬(100 * (countNA (getCol dfT.data j) : Int) >
          threshold * (dfT.data.length : Int)) := by
        rw [above_threshold_iff_rat _ _ threshold hn, heq]
        exact lt_irrefl _
      simp [hnot]
    by_cases hany : ((list_above_threshold dfT threshold).any fun b => b) = true
    · have hstep : clean_em_drop dfT threshold =
          (dropColsByLabels dfT (country_drop_list dfT threshold), true) := by
        show (if ((list_above_threshold dfT threshold).any fun b => b) = true
          then (dropColsByLabels dfT (country_drop_list dfT threshold), true)
          else (dfT, false)) = _
        rw [if_pos hany]
      rw [hstep]
      rw [dropColsByLabels_cols]
      have hlab : dfT.columns.getD j "" ∉ country_drop_list dfT threshold := by
        intro hmem
        obtain ⟨i, hi, hlabi, hmaski⟩ :=
          of_mem_country_drop_list dfT threshold _ hmem
        have hij : i = j := by
          have hgi : dfT.columns.getD i "" = dfT.columns.getD j "" := hlabi
          rw [List.getD_eq_getElem _ _ hi, List.getD_eq_getElem _ _ hj] at hgi
          exact (List.Nodup.getElem_inj_iff hnd).mp hgi
        rw [hij, hmask] at hmaski
        cases hmaski
      refine List.mem_filter.mpr ⟨getD_mem _ j hj "", ?_⟩
      have hcc : (country_drop_list dfT threshold).contains
          (dfT.columns.getD j "") = false := by
        cases hc2 : (country_drop_list dfT threshold).contains
            (dfT.columns.getD j "") with
        | false => rfl
        | true => exact absurd ((contains_eq_true_iff _ _).mp hc2) hlab
      rw [hcc]
      rfl
    · have hstep : clean_em_drop dfT threshold = (dfT, false) := by
        show (if ((list_above_threshold dfT threshold).any fun b => b) = true
          then (dropColsByLabels dfT (country_drop_list dfT threshold), true)
          else (dfT, false)) = _
        rw [if_neg hany]
      rw [hstep]
      exact getD_mem _ j hj ""
  · intro hgt
    have hmask : (list_above_threshold dfT threshold).getD j false = true := by
      rw [list_above_threshold_getD dfT threshold j hj]
      have h := (above_threshold_iff_rat _ _ threshold hn).mpr hgt
      simp [h]
    have hany : (list_above_threshold dfT threshold).any (fun b => b) = true := by
      rw [List.any_eq_true]
      refine ⟨true, ?_, rfl⟩
      rw [← hmask]
      exact getD_mem _ j (by rw [length_list_above_threshold]; exact hj) false
    have hstep : clean_em_drop dfT threshold =
        (dropColsByLabels dfT (country_drop_list dfT threshold), true) := by
      show (if ((list_above_threshold dfT threshold).any fun b => b) = true
        then (dropColsByLabels dfT (country_drop_list dfT threshold), true)
        else (dfT, false)) = _
      rw [if_pos hany]
    rw [hstep]
    intro hmem
    rw [dropColsByLabels_cols] at hmem
    obtain ⟨-, hcond⟩ := List.mem_filter.mp hmem
    have hlabmem : dfT.columns.getD j "" ∈ country_drop_list dfT threshold :=
      mem_country_drop_list dfT threshold j hj hmask
    have hnotmem : dfT.columns.getD j "" ∉ country_drop_list dfT threshold := by
      simpa [contains_eq_true_iff] using hcond
    exact hnotmem hlabmem

/-- C2 witness: two entities each missing one value out of two years — the
fraction is exactly `50/100` — and neither is dropped at threshold 50. -/
theorem clean_missing_drop_threshold_witness :
    (countNA (getCol emHalf.data 0) : ℚ) / (emHalf.data.length : ℚ) =
      ((50 : Int) : ℚ) / 100 ∧
    emHalf.columns.getD 0 "" ∈ (clean_em_drop emHalf 50).1.columns := by
  have h1 : countNA (getCol emHalf.data 0) = 1 := by decide
  have h2 : emHalf.data.length = 2 := by decide
  have heq : (countNA (getCol emHalf.data 0) : ℚ) / (emHalf.data.length : ℚ) =
      ((50 : Int) : ℚ) / 100 := by
    rw [h1, h2]
    norm_num
  refine ⟨heq, ?_⟩
  exact (clean_missing_drop_threshold emHalf 50 0 (by decide) (by decide)
    (by decide)).1 heq

/-! ### Claim theorems: the transpose round trip -/

theorem emOf_numeric (df : DF)
    (hshape : ∀ r ∈ df.data, r ≠ [] ∧ (r.headD Cell.na).isStr = true ∧
      numericRow (r.drop 1)) :
    ∀ r ∈ (emOf df).data, numericRow r := by
  refine transposeGridK_numeric _ _ ?_
  intro r hr
  obtain ⟨r0, hr0, rfl⟩ := List.mem_map.mp hr
  exact (hshape r0 hr0).2.2

theorem zipWith_names_vals (data : List (List Cell))
    (hshape : ∀ r ∈ data, r ≠ [] ∧ (r.headD Cell.na).isStr = true) :
    List.zipWith (fun s r => Cell.str s :: r)
      (data.map (fun r => cellLabel (r.headD Cell.na)))
      (data.map (fun r => r.drop 1)) = data := by
  induction data with
  | nil => rfl
  | cons r rs ih =>
    rw [List.map_cons, List.map_cons, List.zipWith_cons_cons,
      ih (fun x hx => hshape x (by simp [hx]))]
    obtain ⟨hne, hstr⟩ := hshape r (by simp)
    cases r with
    | nil => exact absurd rfl hne
    | cons c rest =>
      cases c with
      | str s => rfl
      | num v => simp [Cell.isStr] at hstr
      | na => simp [Cell.isStr] at hstr

/-- C4: transposing a well-formed year-major table with `'country'` mode
and transposing the result back with `'year'` mode restores the original
column labels, column order and cell values. -/
theorem transpose_round_trip (df : DF) (hWF : WFyear df) :
    ∃ dfT R, transpose_df df "country" = Except.ok (some dfT) ∧
      transpose_df dfT "year" = Except.ok (some R) ∧
      R.columns = df.columns ∧ R.data = df.data := by
  obtain ⟨hne, hrect, hshape, hnodup⟩ := hWF
  obtain ⟨c0, ys, hcols⟩ : ∃ c0 ys, df.columns = c0 :: ys := by
    cases hcl : df.columns with
    | nil => exact absurd hcl hne
    | cons a l => exact ⟨a, l, rfl⟩
  refine ⟨emOf df, yearOf (emOf df),
    transpose_country_eq df c0 ys hcols (fun r hr => (hshape r hr).2.2),
    transpose_year_eq (emOf df) (emOf_numeric df hshape), ?_, ?_⟩
  · show ((emOf df).columnsName.getD "index") :: (emOf df).index = df.columns
    unfold emOf
    rw [hcols]
    rfl
  · show List.zipWith (fun s r => Cell.str s :: r) (emOf df).columns
      (transposeGridK (emOf df).columns.length (emOf df).data) = df.data
    have hvlen : ∀ r ∈ valsOf df, r.length = ys.length := by
      intro r hr
      obtain ⟨r0, hr0, rfl⟩ := List.mem_map.mp hr
      rw [List.length_drop, hrect r0 hr0, hcols]
      simp
    have hclen : (emOf df).columns.length = (valsOf df).length := by
      show (namesOf df).length = _
      unfold namesOf valsOf
      simp
    have hroundtrip : transposeGridK (emOf df).columns.length (emOf df).data =
        valsOf df := by
      show transposeGridK (emOf df).columns.length
        (transposeGridK (df.columns.drop 1).length (valsOf df)) = _
      rw [hclen, hcols]
      exact transposeGridK_transposeGridK _ _ (by
        intro r hr
        have := hvlen r hr
        simpa using this)
    rw [hroundtrip]
    exact zipWith_names_vals df.data (fun r hr => ⟨(hshape r hr).1, (hshape r hr).2.1⟩)

/-- C4 witness: the round trip on a concrete one-entity table. -/
theorem transpose_round_trip_witness :
    ∃ dfT R, transpose_df dfGap2 "country" = Except.ok (some dfT) ∧
      transpose_df dfT "year" = Except.ok (some R) ∧
      R.columns = dfGap2.columns ∧ R.data = dfGap2.data := by
  refine transpose_round_trip dfGap2 ?_
  refine ⟨by decide, by decide, by decide, by decide⟩

/-! ### Invariants through the drop and fill steps -/

theorem clean_em_drop_eq_ite (M : DF) (threshold : Int) :
    clean_em_drop M threshold =
      (if ((list_above_threshold M threshold).any fun b => b) = true
        then (dropColsByLabels M (country_drop_list M threshold), true)
        else (M, false)) := rfl

theorem clean_em_drop_invariants (M : DF) (threshold : Int)
    (hrect : ∀ r ∈ M.data, r.length = M.columns.length)
    (hnum : ∀ r ∈ M.data, numericRow r) (hnodup : M.columns.Nodup) :
    (∀ r ∈ (clean_em_drop M threshold).1.data,
      r.length = (clean_em_drop M threshold).1.columns.length) ∧
    (∀ r ∈ (clean_em_drop M threshold).1.data, numericRow r) ∧
    (clean_em_drop M threshold).1.columns.Nodup ∧
    (clean_em_drop M threshold).1.index = M.index ∧
    (clean_em_drop M threshold).1.data.length = M.data.length := by
  rw [clean_em_drop_eq_ite]
  split
  · exact ⟨dropColsByLabels_rect M _ hrect, dropColsByLabels_numeric M _ hnum,
      hnodup.filter _, rfl, dropColsByLabels_data_length M _⟩
  · exact ⟨hrect, hnum, hnodup, rfl, rfl⟩

theorem clean_em_drop_survivors (M : DF) (threshold : Int)
    (hrect : ∀ r ∈ M.data, r.length = M.columns.length) :
    ∀ j, j < (clean_em_drop M threshold).1.columns.length →
      ¬(100 * (countNA (getCol (clean_em_drop M threshold).1.data j) : Int) >
        threshold * ((clean_em_drop M threshold).1.data.length : Int)) := by
  intro j hj
  rw [clean_em_drop_eq_ite] at hj ⊢
  by_cases hany : ((list_above_threshold M threshold).any fun b => b) = true
  · rw [if_pos hany] at hj ⊢
    obtain ⟨i, hi, hcont, -, hcoleq⟩ :=
      dropColsByLabels_getCol M (country_drop_list M threshold) hrect j hj
    intro habove
    rw [hcoleq, dropColsByLabels_data_length] at habove
    have hmaski : (list_above_threshold M threshold).getD i false = true := by
      rw [list_above_threshold_getD M threshold i hi]
      simp [habove]
    have hmem := mem_country_drop_list M threshold i hi hmaski
    rw [← contains_eq_true_iff] at hmem
    rw [hcont] at hmem
    cases hmem
  · rw [if_neg hany] at hj ⊢
    have hfalse : (list_above_threshold M threshold).getD j false = false := by
      cases hval : (list_above_threshold M threshold).getD j false with
      | false => rfl
      | true =>
        refine absurd (List.any_eq_true.mpr ⟨true, ?_, rfl⟩) hany
        rw [← hval]
        exact getD_mem _ j (by rw [length_list_above_threshold]; exact hj) false
    rw [list_above_threshold_getD M threshold j hj] at hfalse
    intro habove
    simp [habove] at hfalse

theorem mapCols_numeric (f : List Cell → List Cell) (df : DF)
    (hnum : ∀ r ∈ df.data, numericRow r)
    (hf : ∀ xs, (∀ c ∈ xs, c.isNumeric = true) → ∀ c ∈ f xs, c.isNumeric = true) :
    ∀ r ∈ (mapCols f df).data, numericRow r := by
  refine transposeGridK_numeric _ _ ?_
  intro col hcol
  obtain ⟨col0, hcol0, rfl⟩ := List.mem_map.mp hcol
  exact hf col0 (transposeGridK_numeric _ _ hnum col0 hcol0)

theorem clean_em_fill_cases (M : DF) (L : Int) (M1 : DF)
    (h : clean_em_fill M L = Except.ok M1) :
    (countNAColumns M = 0 ∧ M1 = M) ∨
    (0 < countNAColumns M ∧ 1 ≤ L ∧
      M1 = mapCols (ffillList L.toNat) (mapCols (bfillList L.toNat) M)) := by
  unfold clean_em_fill at h
  by_cases hg : 0 < countNAColumns M
  · right
    rw [if_pos hg] at h
    by_cases hL : L < 1
    · have hbe : fillna "bfill" L M = Except.error "Limit must be greater than 0" := by
        unfold fillna
        rw [if_pos hL]
      rw [hbe] at h
      cases h
    · have hL' : 1 ≤ L := by omega
      have hbf : fillna "bfill" L M =
          Except.ok (mapCols (bfillList L.toNat) M) := by
        unfold fillna
        rw [if_neg hL, if_pos rfl]
      have hff : fillna "ffill" L (mapCols (bfillList L.toNat) M) =
          Except.ok (mapCols (ffillList L.toNat) (mapCols (bfillList L.toNat) M)) := by
        unfold fillna
        rw [if_neg hL, if_neg (by decide), if_pos rfl]
      rw [hbf] at h
      have h2 : (match fillna "ffill" L (mapCols (bfillList L.toNat) M) with
        | Except.error e => Except.error e
        | Except.ok b => Except.ok b) = Except.ok M1 := h
      rw [hff] at h2
      have h3 : mapCols (ffillList L.toNat) (mapCols (bfillList L.toNat) M) = M1 := by
        injection h2
      exact ⟨hg, hL', h3.symm⟩
  · left
    rw [if_neg hg] at h
    have h2 : M = M1 := by injection h
    exact ⟨by omega, h2.symm⟩

theorem clean_em_fill_invariants (M M1 : DF) (L : Int)
    (h : clean_em_fill M L = Except.ok M1)
    (hrect : ∀ r ∈ M.data, r.length = M.columns.length)
    (hnum : ∀ r ∈ M.data, numericRow r) :
    M1.columns = M.columns ∧ M1.index = M.index ∧
    M1.data.length = M.data.length ∧
    (∀ r ∈ M1.data, r.length = M1.columns.length) ∧
    (∀ r ∈ M1.data, numericRow r) ∧
    (∀ j, j < M.columns.length →
      countNA (getCol M1.data j) ≤ countNA (getCol M.data j)) := by
  rcases clean_em_fill_cases M L M1 h with ⟨-, rfl⟩ | ⟨-, -, rfl⟩
  · exact ⟨rfl, rfl, rfl, hrect, hnum, fun j _ => le_refl _⟩
  · have hrect1 : ∀ r ∈ (mapCols (bfillList L.toNat) M).data,
        r.length = (mapCols (bfillList L.toNat) M).columns.length :=
      mapCols_rect _ M (bfillList_length L.toNat)
    refine ⟨rfl, rfl, ?_, ?_, ?_, ?_⟩
    · rw [mapCols_data_length, mapCols_data_length]
    · have := mapCols_rect (ffillList L.toNat) (mapCols (bfillList L.toNat) M)
        (ffillList_length L.toNat)
      exact this
    · refine mapCols_numeric _ _ ?_ ?_
      · exact mapCols_numeric _ _ hnum (fun xs hxs => bfillList_numeric L.toNat xs hxs)
      · exact fun xs hxs => ffillList_numeric L.toNat xs hxs
    · intro j hj
      rw [getCol_mapCols (ffillList L.toNat) _ (ffillList_length L.toNat) hrect1 j hj,
        getCol_mapCols (bfillList L.toNat) M (bfillList_length L.toNat) hrect j hj]
      exact le_trans (countNA_ffillList_le _ _) (countNA_bfillList_le _ _)

theorem countNAColumns_congr (A B : DF) (hc : A.columns.length = B.columns.length)
    (hd : A.data = B.data) : countNAColumns A = countNAColumns B := by
  unfold countNAColumns
  rw [hc, hd]

theorem countNAColumns_eq_zero_iff (M : DF) :
    countNAColumns M = 0 ↔
      ∀ j, j < M.columns.length → countNA (getCol M.data j) = 0 := by
  unfold countNAColumns
  rw [List.length_eq_zero]
  constructor
  · intro h j hj
    by_contra hne
    have hmem : j ∈ (List.range M.columns.length).filter
        (fun j => decide (0 < countNA (getCol M.data j))) :=
      List.mem_filter.mpr ⟨List.mem_range.mpr hj, by simp; omega⟩
    rw [h] at hmem
    cases hmem
  · intro h
    rw [List.filter_eq_nil]
    intro j hj
    have := h j (List.mem_range.mp hj)
    simp [this]

theorem mask_any_false_of_bounds (M : DF) (threshold : Int)
    (h : ∀ j, j < M.columns.length →
      ¬(100 * (countNA (getCol M.data j) : Int) >
        threshold * (M.data.length : Int))) :
    ((list_above_threshold M threshold).any fun b => b) = false := by
  rw [List.any_eq_false]
  intro b hb
  obtain ⟨j, hjr, rfl⟩ := List.mem_map.mp hb
  simp [h j (List.mem_range.mp hjr)]

theorem namesOf_zipWith (names : List String) :
    ∀ (G : List (List Cell)), G.length = names.length →
    (List.zipWith (fun s r => Cell.str s :: r) names G).map
      (fun r => cellLabel (r.headD Cell.na)) = names := by
  induction names with
  | nil => intro G h; rfl
  | cons nm nms ih =>
    intro G h
    cases G with
    | nil => simp at h
    | cons g gs =>
      rw [List.zipWith_cons_cons, List.map_cons, ih gs (by simpa using h)]
      rfl

theorem valsOf_zipWith (names : List String) :
    ∀ (G : List (List Cell)), G.length = names.length →
    (List.zipWith (fun s r => Cell.str s :: r) names G).map
      (fun r => r.drop 1) = G := by
  induction names with
  | nil =>
    intro G h
    have hG : G = [] := List.length_eq_zero.mp (by simpa using h)
    subst hG
    rfl
  | cons nm nms ih =>
    intro G h
    cases G with
    | nil => simp at h
    | cons g gs =>
      rw [List.zipWith_cons_cons, List.map_cons, ih gs (by simpa using h)]
      rfl

theorem yearOf_data_length (M : DF) :
    (yearOf M).data.length = M.columns.length := by
  show (List.zipWith _ M.columns (transposeGridK M.columns.length M.data)).length = _
  rw [List.length_zipWith, transposeGridK_length]
  omega

/-- Transposing `yearOf M` back with `'country'` mode recovers the column
labels and the grid of `M`. -/
theorem emOf_yearOf (M : DF)
    (hrect : ∀ r ∈ M.data, r.length = M.columns.length)
    (hidx : M.index.length = M.data.length) :
    (emOf (yearOf M)).columns = M.columns ∧
    (emOf (yearOf M)).data = M.data := by
  have hGlen : (transposeGridK M.columns.length M.data).length =
      M.columns.length := transposeGridK_length _ _
  constructor
  · show (yearOf M).data.map (fun r => cellLabel (r.headD Cell.na)) = M.columns
    exact namesOf_zipWith M.columns _ hGlen
  · show transposeGridK ((yearOf M).columns.drop 1).length
      ((yearOf M).data.map (fun r => r.drop 1)) = M.data
    have hv : (yearOf M).data.map (fun r => r.drop 1) =
        transposeGridK M.columns.length M.data :=
      valsOf_zipWith M.columns _ hGlen
    have hcols : ((yearOf M).columns.drop 1).length = M.data.length := by
      show ((((M.columnsName.getD "index") :: M.index) : List String).drop 1).length = _
      rw [List.drop_one, List.tail_cons, hidx]
    rw [hv, hcols]
    exact transposeGridK_transposeGridK _ _ hrect

theorem clean_em_fill_pos (M : DF) (L : Int) (hg : 0 < countNAColumns M)
    (hL : 1 ≤ L) :
    clean_em_fill M L =
      Except.ok (mapCols (ffillList L.toNat) (mapCols (bfillList L.toNat) M)) := by
  unfold clean_em_fill
  rw [if_pos hg]
  have hbf : fillna "bfill" L M = Except.ok (mapCols (bfillList L.toNat) M) := by
    unfold fillna
    rw [if_neg (by omega), if_pos rfl]
  have hff : fillna "ffill" L (mapCols (bfillList L.toNat) M) =
      Except.ok (mapCols (ffillList L.toNat) (mapCols (bfillList L.toNat) M)) := by
    unfold fillna
    rw [if_neg (by omega), if_neg (by decide), if_pos rfl]
  rw [hbf]
  show (match fillna "ffill" L (mapCols (bfillList L.toNat) M) with
    | Except.error e => Except.error e
    | Except.ok b => Except.ok b) = _
  rw [hff]

theorem clean_em_fill_zero (M : DF) (L : Int) (hg : ¬0 < countNAColumns M) :
    clean_em_fill M L = Except.ok M := by
  unfold clean_em_fill
  rw [if_neg hg]

/-- On a table whose validation passes and whose `'country'` transpose
succeeds, `clean_missing_data` is the drop step followed by the fill step
followed by the `'year'` transpose, with the drop flag returned. -/
theorem clean_missing_data_eq (df : DF) (threshold L : Int) (c0 : String)
    (ys : List String) (hθ1 : 0 ≤ threshold) (hθ2 : threshold ≤ 99)
    (hL1 : 0 ≤ L) (hL2 : L ≤ 5) (hcols : df.columns = c0 :: ys)
    (hnum : ∀ r ∈ df.data, numericRow (r.drop 1)) :
    clean_missing_data df threshold L =
      (match clean_em_fill (clean_em_drop (emOf df) threshold).1 L with
        | .error e => Except.error e
        | .ok dfT2 =>
          match transpose_df dfT2 "year" with
          | .error e => Except.error e
          | .ok dfY =>
            Except.ok (CleanRet.retPair dfY (clean_em_drop (emOf df) threshold).2)) := by
  unfold clean_missing_data
  rw [if_neg (by rw [valid_args_inrange df threshold L hθ1 hθ2 hL1 hL2]; simp),
    transpose_country_eq df c0 ys hcols hnum]

/-- Forward characterisation of a successful `clean_missing_data` run from
given drop- and fill-step results. -/
theorem clean_missing_data_eq_ok (df : DF) (threshold L : Int) (c0 : String)
    (ys : List String) (hθ1 : 0 ≤ threshold) (hθ2 : threshold ≤ 99)
    (hL1 : 0 ≤ L) (hL2 : L ≤ 5) (hcols : df.columns = c0 :: ys)
    (hnum : ∀ r ∈ df.data, numericRow (r.drop 1))
    (Md : DF) (bd : Bool) (M1 : DF)
    (hdrop : clean_em_drop (emOf df) threshold = (Md, bd))
    (hfl : clean_em_fill Md L = Except.ok M1)
    (hnum1 : ∀ r ∈ M1.data, numericRow r) :
    clean_missing_data df threshold L =
      Except.ok (CleanRet.retPair (some (yearOf M1)) bd) := by
  rw [clean_missing_data_eq df threshold L c0 ys hθ1 hθ2 hL1 hL2 hcols hnum,
    hdrop]
  show (match clean_em_fill Md L with
    | Except.error e => Except.error e
    | Except.ok dfT2 =>
      match transpose_df dfT2 "year" with
      | Except.error e => Except.error e
      | Except.ok dfY => Except.ok (CleanRet.retPair dfY bd)) = _
  rw [hfl]
  show (match transpose_df M1 "year" with
    | Except.error e => Except.error e
    | Except.ok dfY => Except.ok (CleanRet.retPair dfY bd)) = _
  rw [transpose_year_eq M1 hnum1]

/-! ### Claim theorems: re-applying clean_missing_data -/

/-- C3 (amended): re-applying `clean_missing_data` with the same threshold
and limit to its own output drops zero additional entities — the second
run's drop mask is empty, its returned flag is false and the entity count
is unchanged.  (Values can still change on the second run: a boundary gap
longer than the limit is filled further, see the counterexample.) -/
theorem clean_missing_reapply (df R : DF) (threshold L : Int) (b : Bool)
    (hWF : WFyear df)
    (hθ1 : 0 ≤ threshold) (hθ2 : threshold ≤ 99) (hL1 : 0 ≤ L) (hL2 : L ≤ 5)
    (h1 : clean_missing_data df threshold L =
      Except.ok (CleanRet.retPair (some R) b)) :
    ∃ R2, clean_missing_data R threshold L =
      Except.ok (CleanRet.retPair (some R2) false) ∧
      R2.data.length = R.data.length := by
  obtain ⟨hne, hrect, hshape, hnodup⟩ := hWF
  obtain ⟨c0, ys, hcols⟩ : ∃ c0 ys, df.columns = c0 :: ys := by
    cases hcl : df.columns with
    | nil => exact absurd hcl hne
    | cons a l => exact ⟨a, l, rfl⟩
  have hM0rect : ∀ r ∈ (emOf df).data, r.length = (emOf df).columns.length := by
    intro r hr
    have hlen := mem_transposeGridK_length _ _ r hr
    show r.length = (namesOf df).length
    rw [hlen]
    unfold valsOf namesOf
    simp
  have hM0num := emOf_numeric df hshape
  have hM0nodup : (emOf df).columns.Nodup := hnodup
  obtain ⟨hd_rect, hd_num, hd_nodup, hd_idx, hd_len⟩ :=
    clean_em_drop_invariants (emOf df) threshold hM0rect hM0num hM0nodup
  have hd_surv := clean_em_drop_survivors (emOf df) threshold hM0rect
  rw [clean_missing_data_eq df threshold L c0 ys hθ1 hθ2 hL1 hL2 hcols
    (fun r hr => (hshape r hr).2.2)] at h1
  cases hfill : clean_em_fill (clean_em_drop (emOf df) threshold).1 L with
  | error e =>
    rw [hfill] at h1
    cases h1
  | ok M1 =>
  rw [hfill] at h1
  obtain ⟨hf_cols, hf_idx, hf_len, hf_rect, hf_num, hf_le⟩ :=
    clean_em_fill_invariants _ M1 L hfill hd_rect hd_num
  have h1' : (match transpose_df M1 "year" with
    | Except.error e => Except.error e
    | Except.ok dfY =>
      Except.ok (CleanRet.retPair dfY (clean_em_drop (emOf df) threshold).2)) =
      Except.ok (CleanRet.retPair (some R) b) := h1
  rw [transpose_year_eq M1 hf_num] at h1'
  have h1'' : Except.ok (CleanRet.retPair (some (yearOf M1))
      (clean_em_drop (emOf df) threshold).2) =
      Except.ok (CleanRet.retPair (some R) b) := h1'
  simp only [Except.ok.injEq, CleanRet.retPair.injEq, Option.some.injEq] at h1''
  obtain ⟨hR, -⟩ := h1''
  have hM1_surv : ∀ j, j < M1.columns.length →
      ¬(100 * (countNA (getCol M1.data j) : Int) >
        threshold * (M1.data.length : Int)) := by
    intro j hj habove
    have hj' : j < (clean_em_drop (emOf df) threshold).1.columns.length := by
      rw [← hf_cols]
      exact hj
    refine hd_surv j hj' ?_
    have hle := hf_le j hj'
    rw [hf_len] at habove
    omega
  have hM1_idx : M1.index.length = M1.data.length := by
    rw [hf_idx, hd_idx, hf_len, hd_len]
    show (df.columns.drop 1).length = (emOf df).data.length
    exact (transposeGridK_length _ _).symm
  subst hR
  have hRnum : ∀ r ∈ (yearOf M1).data, numericRow (r.drop 1) := by
    intro r hr
    have hv : (yearOf M1).data.map (fun r => r.drop 1) =
        transposeGridK M1.columns.length M1.data :=
      valsOf_zipWith M1.columns _ (transposeGridK_length _ _)
    have hmem : r.drop 1 ∈ (yearOf M1).data.map (fun r => r.drop 1) :=
      List.mem_map_of_mem _ hr
    rw [hv] at hmem
    exact transposeGridK_numeric _ _ hf_num _ hmem
  obtain ⟨hM2cols, hM2data⟩ := emOf_yearOf M1 hf_rect hM1_idx
  have hsurv2 : ∀ j, j < (emOf (yearOf M1)).columns.length →
      ¬(100 * (countNA (getCol (emOf (yearOf M1)).data j) : Int) >
        threshold * ((emOf (yearOf M1)).data.length : Int)) := by
    intro j hj
    rw [hM2cols] at hj
    rw [hM2data]
    exact hM1_surv j hj
  have hany2 : ((list_above_threshold (emOf (yearOf M1)) threshold).any
      fun b => b) = false :=
    mask_any_false_of_bounds _ threshold hsurv2
  have hdrop2 : clean_em_drop (emOf (yearOf M1)) threshold =
      (emOf (yearOf M1), false) := by
    rw [clean_em_drop_eq_ite, if_neg (by rw [hany2]; simp)]
  have hcnt : countNAColumns (emOf (yearOf M1)) = countNAColumns M1 :=
    countNAColumns_congr _ _ (by rw [hM2cols]) hM2data
  have hM2num : ∀ r ∈ (emOf (yearOf M1)).data, numericRow r := by
    rw [hM2data]
    exact hf_num
  by_cases hg2 : 0 < countNAColumns (emOf (yearOf M1))
  · have hL1' : 1 ≤ L := by
      rcases clean_em_fill_cases _ L M1 hfill with ⟨hz, rfl⟩ | ⟨-, hL', -⟩
      · rw [hcnt] at hg2
        omega
      · exact hL'
    have hM3num : ∀ r ∈ (mapCols (ffillList L.toNat)
        (mapCols (bfillList L.toNat) (emOf (yearOf M1)))).data, numericRow r := by
      refine mapCols_numeric _ _ ?_ ?_
      · exact mapCols_numeric _ _ hM2num
          (fun xs hxs => bfillList_numeric L.toNat xs hxs)
      · exact fun xs hxs => ffillList_numeric L.toNat xs hxs
    refine ⟨yearOf (mapCols (ffillList L.toNat)
        (mapCols (bfillList L.toNat) (emOf (yearOf M1)))),
      clean_missing_data_eq_ok (yearOf M1) threshold L
        (M1.columnsName.getD "index") M1.index hθ1 hθ2 hL1 hL2 rfl hRnum
        (emOf (yearOf M1)) false _ hdrop2
        (clean_em_fill_pos _ L hg2 hL1') hM3num, ?_⟩
    rw [yearOf_data_length, yearOf_data_length, mapCols_columns, mapCols_columns,
      hM2cols]
  · refine ⟨yearOf (emOf (yearOf M1)),
      clean_missing_data_eq_ok (yearOf M1) threshold L
        (M1.columnsName.getD "index") M1.index hθ1 hθ2 hL1 hL2 rfl hRnum
        (emOf (yearOf M1)) false _ hdrop2
        (clean_em_fill_zero _ L hg2) hM2num, ?_⟩
    rw [yearOf_data_length, yearOf_data_length, hM2cols]

/-- C3 counterexample: the claim's "changes zero additional values" fails.
A start gap of three missing values with limit 1 is filled one position
per application: the second application returns a table different from its
input (while still dropping nothing). -/
theorem clean_missing_reapply_counterexample :
    clean_missing_data dfLong 75 1 =
      Except.ok (CleanRet.retPair (some dfLongRes1) false) ∧
    clean_missing_data dfLongRes1 75 1 =
      Except.ok (CleanRet.retPair (some dfLongRes2) false) ∧
    dfLongRes2 ≠ dfLongRes1 := by
  exact ⟨by decide, by decide, by decide⟩

/-- C3 witness: re-applying the cleaner to the output it produced on a
complete table drops nothing and keeps the entity count. -/
theorem clean_missing_reapply_witness :
    ∃ R2, clean_missing_data dfSmallRes 20 3 =
      Except.ok (CleanRet.retPair (some R2) false) ∧
      R2.data.length = dfSmallRes.data.length :=
  clean_missing_reapply dfSmall dfSmallRes 20 3 false
    (by refine ⟨by decide, by decide, by decide, by decide⟩)
    (by omega) (by omega) (by omega) (by omega) (by decide)

/-! ### Claim theorems: the fill-limit boundary -/

/-- C1 counterexample: with limit 1 an interior gap of `limit + 1 = 2`
consecutive missing values is filled completely by the combined
backward+forward pass (bfill covers the last `limit`, ffill the rest), so
the claim that a gap of `limit + 1` always leaves at least one value
missing is false. -/
theorem clean_missing_fill_gap_counterexample :
    clean_missing_data dfGap2 50 1 =
      Except.ok (CleanRet.retPair (some dfGap2Res) false) ∧
    (∀ r ∈ dfGap2Res.data, ∀ c ∈ r, c.isNA = false) := by
  exact ⟨by decide, by decide⟩

/-- C1 (amended): behaviour of the fill step of `clean_missing_data` on
one entity column, for limit `L ≥ 1`: (i) a gap of exactly `L` followed by
a value is fully filled; (ii) a gap of exactly `L` at the end of the
series, preceded by a value, is fully filled; (iii) an interior gap of
`L + 1` bounded by values on both sides is also fully filled; (iv) a gap
of `L + 1` at the start of the series leaves its first position missing;
(v) a gap of `L + 1` at the end of the series leaves its last position
missing.  So a gap of `limit + 1` leaves a value missing exactly when it
touches the boundary of the series. -/
theorem clean_missing_fill_limit_boundary (dfT dfR : DF) (L : Int) (j : Nat)
    (hL : 1 ≤ L)
    (hrect : ∀ r ∈ dfT.data, r.length = dfT.columns.length)
    (hj : j < dfT.columns.length)
    (hres : clean_em_fill dfT L = Except.ok dfR) :
    (∀ p w s', getCol dfT.data j =
        p ++ List.replicate L.toNat Cell.na ++ (w :: s') →
      w.isNA = false → noNASeg (getCol dfR.data j) p.length L.toNat) ∧
    (∀ q v, getCol dfT.data j = q ++ [v] ++ List.replicate L.toNat Cell.na →
      v.isNA = false → noNASeg (getCol dfR.data j) (q.length + 1) L.toNat) ∧
    (∀ q v w s', getCol dfT.data j =
        q ++ [v] ++ List.replicate (L.toNat + 1) Cell.na ++ (w :: s') →
      v.isNA = false → w.isNA = false →
      noNASeg (getCol dfR.data j) (q.length + 1) (L.toNat + 1)) ∧
    (∀ w s', getCol dfT.data j =
        List.replicate (L.toNat + 1) Cell.na ++ (w :: s') →
      w.isNA = false → (getCol dfR.data j).get? 0 = some Cell.na) ∧
    (∀ q v, getCol dfT.data j =
        q ++ [v] ++ List.replicate (L.toNat + 1) Cell.na →
      v.isNA = false →
      (getCol dfR.data j).get? (q.length + 1 + L.toNat) = some Cell.na) := by
  have hLnat : 1 ≤ L.toNat := by omega
  have key : 0 < countNA (getCol dfT.data j) →
      getCol dfR.data j = fillSeries L.toNat (getCol dfT.data j) := by
    intro hcna
    have hpos := countNAColumns_pos dfT j hj hcna
    have hres2 := clean_em_fill_pos dfT L hpos hL
    rw [hres] at hres2
    have hdfR : dfR = mapCols (ffillList L.toNat) (mapCols (bfillList L.toNat) dfT) := by
      injection hres2
    have hrect1 : ∀ r ∈ (mapCols (bfillList L.toNat) dfT).data,
        r.length = (mapCols (bfillList L.toNat) dfT).columns.length :=
      mapCols_rect _ dfT (bfillList_length L.toNat)
    rw [hdfR,
      getCol_mapCols (ffillList L.toNat) _ (ffillList_length L.toNat) hrect1 j hj,
      getCol_mapCols (bfillList L.toNat) dfT (bfillList_length L.toNat) hrect j hj]
    rfl
  have hgapcount : ∀ (A B : List Cell) (g : Nat), 0 < g →
      getCol dfT.data j = A ++ List.replicate g Cell.na ++ B →
      0 < countNA (getCol dfT.data j) := by
    intro A B g hg hcol
    rw [hcol]
    unfold countNA
    rw [List.countP_append, List.countP_append]
    have hrep : List.countP (fun c => c.isNA) (List.replicate g Cell.na) = g := by
      rw [List.countP_eq_length.mpr]
      · exact List.length_replicate g Cell.na
      · intro a ha
        rw [List.eq_of_mem_replicate ha]
        rfl
    rw [hrep]
    omega
  refine ⟨?_, ?_, ?_, ?_, ?_⟩
  · intro p w s' hcol hw
    have hcna := hgapcount p (w :: s') L.toNat (by omega) hcol
    rw [key hcna, hcol]
    obtain ⟨P, Q, hPQ, hPlen, hval⟩ :=
      fillSeries_gap_exact_after L.toNat p s' w hw
    exact noNASeg_of_decomp _ P (List.replicate L.toNat w) Q p.length L.toNat
      hPQ hPlen (List.length_replicate _ _) hval
  · intro q v hcol hv
    have hcna := hgapcount (q ++ [v]) [] L.toNat (by omega)
      (by rw [hcol, List.append_nil])
    rw [key hcna, hcol]
    obtain ⟨P, hP, hPlen, hval⟩ := fillSeries_gap_exact_end L.toNat q v hv
    refine noNASeg_of_decomp _ P (List.replicate L.toNat v) [] (q.length + 1)
      L.toNat ?_ hPlen (List.length_replicate _ _) hval
    rw [List.append_nil]
    exact hP
  · intro q v w s' hcol hv hw
    have hcna := hgapcount (q ++ [v]) (w :: s') (L.toNat + 1) (by omega) hcol
    rw [key hcna, hcol]
    obtain ⟨P, Q, hPQ, hPlen, hval⟩ :=
      fillSeries_gap_succ_interior L.toNat hLnat q s' v w hv hw
    exact noNASeg_of_decomp _ P (v :: List.replicate L.toNat w) Q (q.length + 1)
      (L.toNat + 1) hPQ hPlen (by simp) hval
  · intro w s' hcol hw
    have hcna := hgapcount [] (w :: s') (L.toNat + 1) (by omega)
      (by rw [hcol]; rfl)
    rw [key hcna, hcol]
    exact fillSeries_gap_succ_start L.toNat s' w hw
  · intro q v hcol hv
    have hcna := hgapcount (q ++ [v]) [] (L.toNat + 1) (by omega)
      (by rw [hcol, List.append_nil])
    rw [key hcna, hcol]
    exact fillSeries_gap_succ_end L.toNat q v hv

/-- C1 witness: limit 1 on a start gap of two missing values before the
single value of the series — the filled column still starts missing. -/
theorem clean_missing_fill_limit_boundary_witness :
    ∃ dfR, clean_em_fill emStartGap 1 = Except.ok dfR ∧
      (getCol dfR.data 0).get? 0 = some Cell.na := by
  refine ⟨mapCols (ffillList 1) (mapCols (bfillList 1) emStartGap), by decide, ?_⟩
  have h := (clean_missing_fill_limit_boundary emStartGap
    (mapCols (ffillList 1) (mapCols (bfillList 1) emStartGap)) 1 0
    (by omega) (by decide) (by decide) (by decide)).2.2.2.1
  exact h (Cell.num 5) [] (by decide) (by decide)

end SaGapminder
